import Mathlib

/-!
Verification of the workbench-preprocessor CSV pipeline.

Cells are modelled as `List Char` (the code works on Rust `String`/`&str`
values, which are sequences of Unicode scalar values).  Byte-level steps
(the Windows-1252 re-encode in the mojibake repair, the UTF-8 byte scan in
the year heuristic) are modelled on `List Nat` byte lists with explicit
encoders/decoders.
-/

set_option autoImplicit false

/-- Shorthand turning a string literal into the `List Char` cell representation. -/
def S (s : String) : List Char := s.toList

/-- Unicode White_Space property, the trimming predicate of Rust `str::trim`. -/
def isRustWhitespace (c : Char) : Bool :=
  let n := c.toNat
  decide ((0x09 ≤ n ∧ n ≤ 0x0D) ∨ n = 0x20 ∨ n = 0x85 ∨ n = 0xA0 ∨ n = 0x1680 ∨
    (0x2000 ≤ n ∧ n ≤ 0x200A) ∨ n = 0x2028 ∨ n = 0x2029 ∨ n = 0x202F ∨
    n = 0x205F ∨ n = 0x3000)

/-- Rust `str::trim`: drop whitespace from both ends. -/
def rustTrim (v : List Char) : List Char :=
  ((v.dropWhile isRustWhitespace).reverse.dropWhile isRustWhitespace).reverse

/-- Rust `char::to_ascii_lowercase`. -/
def asciiLowerChar (c : Char) : Char :=
  if 'A' ≤ c ∧ c ≤ 'Z' then Char.ofNat (c.toNat + 32) else c

/-- Embeds `normalize_cell` (csv_modifier.rs): trim, and map the
case-insensitive placeholder `#VALUE!` to the empty string.
`eq_ignore_ascii_case` against the all-lowercase literal is equivalent to
ASCII-lowercasing the trimmed value and comparing with the literal. -/
def normalizeCell (v : List Char) : List Char :=
  let t := rustTrim v
  if t.map asciiLowerChar = S "#value!" then [] else t

/-- Embeds `is_effectively_empty` (csv_modifier.rs). -/
def isEffectivelyEmpty (v : List Char) : Bool :=
  normalizeCell v = []

/-- The fixed marker character set of `contains_mojibake_markers` (csv_modifier.rs). -/
def mojibakeMarkers : List Char := ['Ã', 'â', '€', '™', 'œ', '¢', '‰', 'Š', 'ž', 'Â']

/-- Embeds `contains_mojibake_markers` (csv_modifier.rs). -/
def containsMojibakeMarkers (v : List Char) : Bool :=
  v.any (fun c => mojibakeMarkers.contains c)

/-- Windows-1252 encoding of one scalar value (WHATWG index, as implemented by
`encoding_rs::WINDOWS_1252.encode`); `none` when the character is unmappable,
in which case `encode` reports `had_errors`. -/
def win1252EncodeChar (c : Char) : Option Nat :=
  let n := c.toNat
  if n < 0x80 then some n
  else if 0xA0 ≤ n ∧ n ≤ 0xFF then some n
  else
    match n with
    | 0x20AC => some 0x80
    | 0x0081 => some 0x81
    | 0x201A => some 0x82
    | 0x0192 => some 0x83
    | 0x201E => some 0x84
    | 0x2026 => some 0x85
    | 0x2020 => some 0x86
    | 0x2021 => some 0x87
    | 0x02C6 => some 0x88
    | 0x2030 => some 0x89
    | 0x0160 => some 0x8A
    | 0x2039 => some 0x8B
    | 0x0152 => some 0x8C
    | 0x008D => some 0x8D
    | 0x017D => some 0x8E
    | 0x008F => some 0x8F
    | 0x0090 => some 0x90
    | 0x2018 => some 0x91
    | 0x2019 => some 0x92
    | 0x201C => some 0x93
    | 0x201D => some 0x94
    | 0x2022 => some 0x95
    | 0x2013 => some 0x96
    | 0x2014 => some 0x97
    | 0x02DC => some 0x98
    | 0x2122 => some 0x99
    | 0x0161 => some 0x9A
    | 0x203A => some 0x9B
    | 0x0153 => some 0x9C
    | 0x009D => some 0x9D
    | 0x017E => some 0x9E
    | 0x0178 => some 0x9F
    | _ => none

/-- Windows-1252 encoding of a whole cell; `none` models `had_errors = true`. -/
def win1252Encode (v : List Char) : Option (List Nat) :=
  v.mapM win1252EncodeChar

/-- Continuation-byte test for the strict UTF-8 decoder. -/
def isUtf8Cont (b : Nat) : Bool :=
  decide (0x80 ≤ b ∧ b ≤ 0xBF)

/-- Strict UTF-8 decoding (the validity check of Rust `String::from_utf8`):
rejects overlong forms, surrogates and values beyond U+10FFFF. -/
def utf8Decode : List Nat → Option (List Char)
  | [] => some []
  | b :: rest =>
    if b < 0x80 then
      (utf8Decode rest).map (fun cs => Char.ofNat b :: cs)
    else if 0xC2 ≤ b ∧ b ≤ 0xDF then
      match rest with
      | b1 :: rest1 =>
        if isUtf8Cont b1 then
          (utf8Decode rest1).map
            (fun cs => Char.ofNat ((b - 0xC0) * 0x40 + (b1 - 0x80)) :: cs)
        else none
      | [] => none
    else if 0xE0 ≤ b ∧ b ≤ 0xEF then
      match rest with
      | b1 :: b2 :: rest2 =>
        let lo1 : Nat := if b = 0xE0 then 0xA0 else 0x80
        let hi1 : Nat := if b = 0xED then 0x9F else 0xBF
        if (lo1 ≤ b1 ∧ b1 ≤ hi1) ∧ isUtf8Cont b2 then
          (utf8Decode rest2).map
            (fun cs =>
              Char.ofNat ((b - 0xE0) * 0x1000 + (b1 - 0x80) * 0x40 + (b2 - 0x80)) :: cs)
        else none
      | _ => none
    else if 0xF0 ≤ b ∧ b ≤ 0xF4 then
      match rest with
      | b1 :: b2 :: b3 :: rest3 =>
        let lo1 : Nat := if b = 0xF0 then 0x90 else 0x80
        let hi1 : Nat := if b = 0xF4 then 0x8F else 0xBF
        if (lo1 ≤ b1 ∧ b1 ≤ hi1) ∧ isUtf8Cont b2 ∧ isUtf8Cont b3 then
          (utf8Decode rest3).map
            (fun cs =>
              Char.ofNat ((b - 0xF0) * 0x40000 + (b1 - 0x80) * 0x1000 +
                (b2 - 0x80) * 0x40 + (b3 - 0x80)) :: cs)
        else none
      | _ => none
    else none

/-- Embeds `fix_common_mojibake` (csv_modifier.rs): attempt the repair only when
a marker character is present; re-encode the scalars as Windows-1252 bytes,
re-decode those bytes as UTF-8, and accept the result only when it differs
from the input.  The accepted result is not checked for remaining markers. -/
def fixCommonMojibake (v : List Char) : Option (List Char) :=
  if ¬ containsMojibakeMarkers v then none
  else
    match win1252Encode v with
    | none => none
    | some bytes =>
      match utf8Decode bytes with
      | some decoded => if decoded ≠ v then some decoded else none
      | none => none

/-- The non-breaking-space character replaced by `sanitize_text_in_place`. -/
def nbspChar : Char := '\u00A0'

/-- The NBSP replacement `value.replace(nbsp, " ")` of `sanitize_text_in_place`. -/
def nbspFix (v : List Char) : List Char :=
  v.map (fun c => if c = nbspChar then ' ' else c)

/-- Embeds `sanitize_text_in_place` (csv_modifier.rs), returning the new cell
value together with the `changed` flag. -/
def sanitizeText (v : List Char) : List Char × Bool :=
  let p := if v.contains nbspChar then (nbspFix v, true) else (v, false)
  match fixCommonMojibake p.1 with
  | some decoded => if decoded ≠ p.1 then (decoded, true) else p
  | none => p

/-- Embeds `RowContext` (csv_modifier.rs): a view over one row keyed by header. -/
structure RowContext where
  headers : List (List Char)
  values : List (List Char)
  rowIndex : Nat

/-- Embeds `RowContext::get`: position of the first header equal to `column`,
then the value at that index. -/
def RowContext.get (ctx : RowContext) (column : List Char) : Option (List Char) :=
  (ctx.headers.findIdx? (fun h => h == column)).bind (fun i => ctx.values.get? i)

/-- Embeds `RowContext::get_or_empty`. -/
def RowContext.getOrEmpty (ctx : RowContext) (column : List Char) : List Char :=
  ((ctx.get column).map normalizeCell).getD []

/-- Embeds `RowContext::get_first_non_empty`: the normalized value of the first
listed column that is present and normalizes to a non-empty string. -/
def RowContext.getFirstNonEmpty (ctx : RowContext) (columns : List (List Char)) :
    Option (List Char) :=
  ((columns.filterMap (fun c => ctx.get c)).map normalizeCell).find?
    (fun v => !v.isEmpty)

/-- Prefix of `v` strictly before the last occurrence of `ch`; `none` when `ch`
does not occur.  Embeds the `value[..value.rfind(ch)]` pattern of the source. -/
def beforeLast (ch : Char) (v : List Char) : Option (List Char) :=
  match v.reverse.dropWhile (fun c => c != ch) with
  | [] => none
  | _ :: rest => some rest.reverse

/-- A column rewrite rule: the `ColumnModifier` trait of csv_modifier.rs. -/
structure ColModifier where
  modify : List Char → RowContext → List Char
  validate : List Char → RowContext → Bool

/-- The `validate` body of `AccessIdentifierValidator` (csv_modifier.rs). -/
def accessIdentifierValidate (value : List Char) : Bool :=
  let clean := normalizeCell value
  if clean.isEmpty then false
  else !((S "_00").isSuffixOf clean || (S "_000").isSuffixOf clean)

/-- Embeds `AccessIdentifierValidator` (csv_modifier.rs). -/
def accessIdentifierValidator : ColModifier where
  modify := fun value _ => normalizeCell value
  validate := fun value _ => accessIdentifierValidate value

/-- The character loop of `FieldDescriptionSemicolonEscaper::modify`: a
semicolon whose original predecessor is not a backslash gets escaped.
Returns the rebuilt text and the `changed` flag. -/
def escapeSemiAux : Option Char → List Char → List Char × Bool
  | _, [] => ([], false)
  | prev, ch :: rest =>
    let tail := escapeSemiAux (some ch) rest
    if ch = ';' then
      if prev ≠ some '\\' then ('\\' :: ';' :: tail.1, true)
      else (';' :: tail.1, tail.2)
    else (ch :: tail.1, tail.2)

/-- The `modify` body of `FieldDescriptionSemicolonEscaper` (csv_modifier.rs,
the variant installed by `CsvModifier::new`, which does not quote-wrap). -/
def fieldDescriptionEscape (value : List Char) : List Char :=
  if value.isEmpty then []
  else
    let r := escapeSemiAux none value
    if r.2 then r.1 else value

/-- Embeds `FieldDescriptionSemicolonEscaper` (csv_modifier.rs). -/
def fieldDescriptionSemicolonEscaper : ColModifier where
  modify := fun value _ => fieldDescriptionEscape value
  validate := fun _ _ => true

/-- Embeds `ParentIdModifier` (csv_modifier.rs): derive `parent_id` from
`accessIdentifier` by dropping the segment after the last underscore. -/
def parentIdModifier : ColModifier where
  modify := fun _ row =>
    let accessIdentifier := row.getOrEmpty (S "accessIdentifier")
    if !accessIdentifier.isEmpty then
      match beforeLast '_' accessIdentifier with
      | some p => p
      | none => accessIdentifier
    else []
  validate := fun _ row => !(row.getOrEmpty (S "accessIdentifier")).isEmpty

/-- The `modify` body of `FileExtensionModifier` (csv_modifier.rs). -/
def fileExtensionModify (value : List Char) (row : RowContext) : List Char :=
  let fileExtension :=
    (row.getFirstNonEmpty [S "file_extension", S "file_extention"]).getD []
  let accessIdentifier := row.getOrEmpty (S "accessIdentifier")
  let valueClean := normalizeCell value
  if fileExtension.isEmpty || valueClean.isEmpty || accessIdentifier.isEmpty then
    valueClean
  else
    let parentId := (beforeLast '_' accessIdentifier).getD accessIdentifier
    let baseName := (beforeLast '.' valueClean).getD valueClean
    parentId ++ S "/" ++ baseName ++ S "." ++ fileExtension

/-- The `validate` body of `FileExtensionModifier` (csv_modifier.rs). -/
def fileExtensionValidate (value : List Char) (row : RowContext) : Bool :=
  let hasValue := !(normalizeCell value).isEmpty
  let hasExtension :=
    (row.getFirstNonEmpty [S "file_extension", S "file_extention"]).isSome
  let hasAccessIdentifier := !(row.getOrEmpty (S "accessIdentifier")).isEmpty
  hasValue && hasExtension && hasAccessIdentifier

/-- Embeds `FileExtensionModifier` (csv_modifier.rs). -/
def fileExtensionModifier : ColModifier :=
  ⟨fileExtensionModify, fileExtensionValidate⟩

/-- Configuration of `FieldModelModifier` (modifiers/field_model.rs): the
flattened extension-to-model mapping and the default model, as produced by
`from_toml_str` (the bundled TOML file is not part of the sources, so the
mapping content is left abstract). -/
structure FieldModelCfg where
  mappings : List (List Char × List Char)
  defaultModel : List Char

/-- Embeds `normalize_extension` (modifiers/field_model.rs). -/
def normalizeExtension (v : List Char) : List Char :=
  ((rustTrim v).dropWhile (fun c => c == '.')).map asciiLowerChar

/-- Embeds `FieldModelModifier::model_for_extension` (modifiers/field_model.rs). -/
def modelForExtension (cfg : FieldModelCfg) (extension : List Char) : List Char :=
  let key := normalizeExtension extension
  if key.isEmpty then cfg.defaultModel
  else
    match cfg.mappings.lookup key with
    | some m => m
    | none => cfg.defaultModel

/-- Embeds `FieldModelModifier` (modifiers/field_model.rs); `validate` is the
trait default, which always succeeds. -/
def fieldModelModifier (cfg : FieldModelCfg) : ColModifier where
  modify := fun value row =>
    let extension :=
      (row.getFirstNonEmpty [S "file_extension", S "file_extention"]).getD []
    let targetModel := modelForExtension cfg extension
    let currentValue := normalizeCell value
    if currentValue = targetModel then currentValue else targetModel
  validate := fun _ _ => true

/-- Embeds `ensure_wrapped_in_quotes` (csv_modifier.rs): the bool reports
whether the value changed.  A value already starting and ending with a double
quote (a single `"` qualifies for both) is left alone. -/
def ensureWrappedInQuotes (v : List Char) : List Char × Bool :=
  if v.isEmpty then (['"', '"'], true)
  else if v.head? = some '"' ∧ v.getLast? = some '"' then (v, false)
  else
    let escaped := v.flatMap (fun c => if c = '"' then ['"', '"'] else [c])
    ('"' :: (escaped ++ ['"']), true)

/-- Embeds `ProcessingStats` (csv_modifier.rs); the `columns_processed` set is
carried separately on `CsvResult`. -/
structure Stats where
  total_rows : Nat := 0
  cells_modified : Nat := 0
  validation_failures : Nat := 0
  skipped_rows : Nat := 0
deriving DecidableEq

/-- Mutable state of one processing pass: statistics, the seen-identifier set
(`seen_access_identifiers`), and the rows written so far. -/
structure ProcState where
  stats : Stats := {}
  seen : List (List Char) := []
  output : List (List (List Char)) := []
deriving DecidableEq

/-- Lookup in the `header_map` HashMap of `process_csv_reader`: built by
inserting `(header, index)` pairs left to right, so for a duplicated header
name the last index wins. -/
def headerMapGet (headers : List (List Char)) (name : List Char) : Option Nat :=
  match (headers.enum.filter (fun p => p.2 == name)).getLast? with
  | some p => some p.1
  | none => none

/-- The `accessIdentifier` column name. -/
def aidColumn : List Char := S "accessIdentifier"

/-- The placeholder-clearing side effect in the validation-failure branch of
`process_csv_reader`: when the named column is the target, the cell trims to
non-empty but normalizes to empty, and the current cell is non-empty, the
cell is cleared and counted as modified. -/
def clearIfPlaceholder (target : List Char) (name : List Char)
    (originalCell : List Char) (ci : Nat) (rv : List (List Char)) (stats : Stats) :
    List (List Char) × Stats :=
  if normalizeCell originalCell = [] ∧ rustTrim originalCell ≠ [] ∧ name = target then
    match rv.get? ci with
    | some cur =>
      if cur ≠ [] then
        (rv.set ci [], {stats with cells_modified := stats.cells_modified + 1})
      else (rv, stats)
    | none => (rv, stats)
  else (rv, stats)

/-- Result of the per-row modifier loop. -/
structure PassResult where
  row : List (List Char)
  stats : Stats
  ident : Option (List Char)
  valid : Bool

/-- Embeds the `for (column_name, modifier) in &self.column_modifiers` loop of
`process_csv_reader`: columns absent from the header map are skipped; a valid
`accessIdentifier` already in the seen set is a duplicate that invalidates
the row; a validation failure invalidates the row only for the
`accessIdentifier` column, after the placeholder-clearing side effects. -/
def modifierPass (headers : List (List Char)) (rowIdx : Nat) (seen : List (List Char)) :
    List (List Char × ColModifier) → List (List Char) → Stats → Option (List Char) →
    PassResult
  | [], rv, stats, cur => ⟨rv, stats, cur, true⟩
  | (columnName, m) :: rest, rv, stats, cur =>
    match headerMapGet headers columnName with
    | none => modifierPass headers rowIdx seen rest rv stats cur
    | some colIndex =>
      match rv.get? colIndex with
      | none => modifierPass headers rowIdx seen rest rv stats cur
      | some cell =>
        let ctx : RowContext := ⟨headers, rv, rowIdx⟩
        if m.validate cell ctx then
          if columnName = aidColumn ∧ normalizeCell cell ≠ [] ∧ normalizeCell cell ∈ seen then
            ⟨rv, {stats with validation_failures := stats.validation_failures + 1},
              cur, false⟩
          else
            let cur' :=
              if columnName = aidColumn ∧ normalizeCell cell ≠ [] then
                some (normalizeCell cell)
              else cur
            let newValue := m.modify cell ctx
            let stats' :=
              if cell ≠ newValue then
                {stats with cells_modified := stats.cells_modified + 1}
              else stats
            modifierPass headers rowIdx seen rest (rv.set colIndex newValue) stats' cur'
        else
          let stats' :=
            {stats with validation_failures := stats.validation_failures + 1}
          let r1 := clearIfPlaceholder (S "parent_id") columnName cell colIndex rv stats'
          let r2 := clearIfPlaceholder (S "file") columnName cell colIndex r1.1 r1.2
          if columnName = aidColumn then ⟨r2.1, r2.2, cur, false⟩
          else modifierPass headers rowIdx seen rest r2.1 r2.2 cur

/-- Sanitize every cell of a record (`sanitize_text_in_place` over the row). -/
def sanitizeRow (record : List (List Char)) : List (List Char) :=
  record.map (fun c => (sanitizeText c).1)

/-- Number of cells of the record changed by sanitization. -/
def sanitizedCount (record : List (List Char)) : Nat :=
  (record.filter (fun c => (sanitizeText c).2)).length

/-- The defect marking of the title gate: prefix cell 0 with `#` unless it
already starts with `#`; an empty cell 0 becomes `#`. -/
def markFirstCell (rv : List (List Char)) : List (List Char) :=
  match rv.get? 0 with
  | none => rv
  | some first =>
    if first.head? = some '#' then rv
    else if first.isEmpty then rv.set 0 ['#']
    else rv.set 0 ('#' :: first)

/-- Insertion into the seen-identifier set (`HashSet::insert`). -/
def insertSeen (v : List Char) (seen : List (List Char)) : List (List Char) :=
  if v ∈ seen then seen else v :: seen

/-- The tail of the per-row algorithm after the title gate: modifier loop,
then on a valid row the seen-set commit, the `field_description`
quote-wrapping, and the write. -/
def processRowCore (mods : List (List Char × ColModifier)) (headers : List (List Char))
    (fdCol : Option Nat) (rowIdx : Nat) (st : ProcState) (stats0 : Stats)
    (rv0 : List (List Char)) : ProcState :=
  let pr := modifierPass headers rowIdx st.seen mods rv0 stats0 none
  if pr.valid then
    let seen' :=
      match pr.ident with
      | some v => insertSeen v st.seen
      | none => st.seen
    let wrapped :=
      match fdCol with
      | some fdIdx =>
        match pr.row.get? fdIdx with
        | some cell =>
          let w := ensureWrappedInQuotes cell
          if w.2 then
            (pr.row.set fdIdx w.1,
              {pr.stats with cells_modified := pr.stats.cells_modified + 1})
          else (pr.row.set fdIdx w.1, pr.stats)
        | none => (pr.row, pr.stats)
      | none => (pr.row, pr.stats)
    { stats := {wrapped.2 with total_rows := wrapped.2.total_rows + 1},
      seen := seen',
      output := st.output ++ [wrapped.1] }
  else
    { st with stats := {pr.stats with skipped_rows := pr.stats.skipped_rows + 1} }

/-- Embeds one iteration of the record loop of `process_csv_reader`:
sanitization and its cell count, the title gate (marking, counting and
skipping a row whose title normalizes to empty), then `processRowCore`. -/
def processRow (mods : List (List Char × ColModifier)) (headers : List (List Char))
    (titleCol : Option (Nat × List Char)) (fdCol : Option Nat) (rowIdx : Nat)
    (st : ProcState) (record : List (List Char)) : ProcState :=
  let rv0 := sanitizeRow record
  let stats0 :=
    {st.stats with cells_modified := st.stats.cells_modified + sanitizedCount record}
  match titleCol with
  | some (titleIdx, _) =>
    if normalizeCell ((rv0.get? titleIdx).getD []) = [] then
      let _ := markFirstCell rv0
      { st with
        stats :=
          {stats0 with
            validation_failures := stats0.validation_failures + 1,
            skipped_rows := stats0.skipped_rows + 1} }
    else processRowCore mods headers fdCol rowIdx st stats0 rv0
  | none => processRowCore mods headers fdCol rowIdx st stats0 rv0

/-- The record loop of `process_csv_reader` with its enumeration counter. -/
def processRows (mods : List (List Char × ColModifier)) (headers : List (List Char))
    (titleCol : Option (Nat × List Char)) (fdCol : Option Nat) :
    Nat → ProcState → List (List (List Char)) → ProcState
  | _, st, [] => st
  | rowIdx, st, record :: rest =>
    processRows mods headers titleCol fdCol (rowIdx + 1)
      (processRow mods headers titleCol fdCol rowIdx st record) rest

/-- Outcome of `process_csv_reader`: the written header, the written data
rows, the statistics, and the `columns_processed` names. -/
structure CsvResult where
  header : List (List Char)
  rows : List (List (List Char))
  stats : Stats
  columns : List (List Char)
deriving DecidableEq

/-- Embeds `CsvModifier::process_csv_reader` after CSV parsing: the header is
written unchanged, the title column prefers `title` over `fileTitle`, and the
records stream through `processRow`. -/
def processCsv (mods : List (List Char × ColModifier)) (headers : List (List Char))
    (records : List (List (List Char))) : CsvResult :=
  let titleCol :=
    match headerMapGet headers (S "title") with
    | some i => some (i, S "title")
    | none =>
      match headerMapGet headers (S "fileTitle") with
      | some i => some (i, S "fileTitle")
      | none => none
  let fdCol := headerMapGet headers (S "field_description")
  let final := processRows mods headers titleCol fdCol 0 {} records
  ⟨headers, final.output, final.stats, mods.map (fun p => p.1)⟩

/-- Embeds `process_csv_reader` including the csv reader's record check: the
reader is built without `flexible(true)`, so the `result?` in the record loop
aborts the whole run with an `UnequalLengths` error at the first record whose
cell count differs from the header's.  `none` is that abort; on rectangular
input the record loop runs as in `processCsv`. -/
def processCsvReader (mods : List (List Char × ColModifier))
    (headers : List (List Char)) (records : List (List (List Char))) :
    Option CsvResult :=
  if records.all (fun r => r.length == headers.length) then
    some (processCsv mods headers records)
  else none

/-- The modifiers of the full pipeline that follow `accessIdentifier` in the
ascending-key iteration order of the `BTreeMap`. -/
def tailMods (cfg : FieldModelCfg) : List (List Char × ColModifier) :=
  [(S "field_description", fieldDescriptionSemicolonEscaper),
   (S "field_model", fieldModelModifier cfg),
   (S "file", fileExtensionModifier),
   (S "parent_id", parentIdModifier)]

/-- The modifier map of the full pipeline built by `create_modifier` in
main.rs with all three optional modifiers active: the two built-ins of
`CsvModifier::new` plus `parent_id`, `file` and `field_model`, listed in the
ascending-key iteration order of the `BTreeMap` (so `accessIdentifier`
first). -/
def defaultMods (cfg : FieldModelCfg) : List (List Char × ColModifier) :=
  (aidColumn, accessIdentifierValidator) :: tailMods cfg

/-- An arbitrary concrete field-model configuration for concrete runs. -/
def cfg0 : FieldModelCfg := ⟨[], S "Binary"⟩

/-- The modifier map of `CsvModifier::new` plus `parent_id` and `file`, as
built in the repository's integration tests. -/
def testMods : List (List Char × ColModifier) :=
  [(S "accessIdentifier", accessIdentifierValidator),
   (S "field_description", fieldDescriptionSemicolonEscaper),
   (S "file", fileExtensionModifier),
   (S "parent_id", parentIdModifier)]

/-- UTF-8 encoding of one scalar value, used because `parse_year_and_month`
(item_csv_generator.rs) scans `s.as_bytes()`. -/
def utf8EncodeChar (c : Char) : List Nat :=
  let n := c.toNat
  if n < 0x80 then [n]
  else if n < 0x800 then [0xC0 + n / 0x40, 0x80 + n % 0x40]
  else if n < 0x10000 then
    [0xE0 + n / 0x1000, 0x80 + (n / 0x40) % 0x40, 0x80 + n % 0x40]
  else
    [0xF0 + n / 0x40000, 0x80 + (n / 0x1000) % 0x40,
     0x80 + (n / 0x40) % 0x40, 0x80 + n % 0x40]

/-- UTF-8 byte sequence of a cell. -/
def utf8Encode (v : List Char) : List Nat := v.flatMap utf8EncodeChar

/-- ASCII digit test on a byte (`u8::is_ascii_digit`). -/
def isAsciiDigit (b : Nat) : Bool := decide (0x30 ≤ b ∧ b ≤ 0x39)

/-- Decimal value of a run of ASCII digit bytes. -/
def digitsVal (bytes : List Nat) : Nat :=
  bytes.foldl (fun acc b => 10 * acc + (b - 0x30)) 0

/-- Embeds `parse_month_slice` (item_csv_generator.rs): the 1-2 digit month in
the byte range `[start, stop)`, accepted only when the whole slice is digits
and the value lies in `[1, 12]`. -/
def parseMonthSlice (bytes : List Nat) (start stop : Nat) : Option Nat :=
  if start ≥ stop ∨ stop > bytes.length then none
  else
    let slice := (bytes.drop start).take (stop - start)
    if slice.all isAsciiDigit then
      let m := digitsVal slice
      if 1 ≤ m ∧ m ≤ 12 then some m else none
    else none

/-- The year scan of `parse_year_and_month`: the first byte position whose
next four bytes are ASCII digits forming a value in `[1000, 2999]`, together
with that value.  On any non-match the scan advances by one byte. -/
def findYear : Nat → List Nat → Option (Nat × Nat)
  | _, [] => none
  | pos, b :: rest =>
    let w := (b :: rest).take 4
    if w.length = 4 ∧ w.all isAsciiDigit then
      let y := digitsVal w
      if 1000 ≤ y ∧ y ≤ 2999 then some (pos, y)
      else findYear (pos + 1) rest
    else findYear (pos + 1) rest

/-- The month lookup after the year in `parse_year_and_month`: year, then
dash or slash, then month, using the two bytes following the delimiter
(clamped to the text length). -/
def monthAfterYear (bytes : List Nat) (yIdx : Nat) : Option Nat :=
  if yIdx + 5 ≤ bytes.length then
    match bytes.get? (yIdx + 4) with
    | some d =>
      if d = 0x2D ∨ d = 0x2F then
        parseMonthSlice bytes (yIdx + 5) (min (yIdx + 7) bytes.length)
      else none
    | none => none
  else none

/-- The month lookup before the year in `parse_year_and_month`: month, then
dash or slash, then year, trying two digits before the delimiter, then one. -/
def monthBeforeYear (bytes : List Nat) (yIdx : Nat) : Option Nat :=
  if yIdx ≥ 2 then
    let delimPos := yIdx - 1
    match bytes.get? delimPos with
    | some d =>
      if d = 0x2D ∨ d = 0x2F then
        match
          (if delimPos ≥ 2 then parseMonthSlice bytes (delimPos - 2) delimPos
           else none) with
        | some m => some m
        | none => parseMonthSlice bytes (delimPos - 1) delimPos
      else none
    | none => none
  else none

/-- The month-attachment step of `parse_year_and_month`: a month after the
year wins over a month before it; with neither, the year stands alone. -/
def yearWithMonth (bytes : List Nat) (yIdx year : Nat) : Option (Nat × Option Nat) :=
  match monthAfterYear bytes yIdx with
  | some m => some (year, some m)
  | none =>
    match monthBeforeYear bytes yIdx with
    | some m => some (year, some m)
    | none => some (year, none)

/-- Embeds `parse_year_and_month` (item_csv_generator.rs): trim, scan the
UTF-8 bytes for the year, then look for a month adjacent to the year with
`-` or `/` as delimiter, first after the year, then before it. -/
def parseYearAndMonth (value : List Char) : Option (Nat × Option Nat) :=
  let s := rustTrim value
  if s.isEmpty then none
  else
    let bytes := utf8Encode s
    match findYear 0 bytes with
    | none => none
    | some (yIdx, year) => yearWithMonth bytes yIdx year

/-- Embeds the per-parent `GroupData` of `ItemCsvGenerator::generate`. -/
structure GroupData where
  title : List Char := []
  count : Nat := 0
  yearMonthCounts : List ((Nat × Nat) × Nat) := []
  yearCounts : List (Nat × Nat) := []
  totalDateSamples : Nat := 0
deriving DecidableEq

/-- Models `*map.entry(key).or_insert(0) += 1` on an association list. -/
def bumpAssoc {α : Type} [DecidableEq α] (key : α) : List (α × Nat) → List (α × Nat)
  | [] => [(key, 1)]
  | (k, n) :: rest =>
    if k = key then (k, n + 1) :: rest else (k, n) :: bumpAssoc key rest

/-- The date-source preference of `ItemCsvGenerator::generate`: the non-empty
normalized `field_date` cell when present, else the non-empty normalized
`fileTitle`. -/
def dateSourceFor (fieldDateIdx : Option Nat) (record : List (List Char))
    (fileTitleClean : List Char) : Option (List Char) :=
  let fromDate :=
    match fieldDateIdx with
    | some i =>
      match record.get? i with
      | some dateRaw =>
        let candidate := normalizeCell dateRaw
        if candidate ≠ [] then some candidate else none
      | none => none
    | none => none
  match fromDate with
  | some c => some c
  | none => if fileTitleClean ≠ [] then some fileTitleClean else none

/-- The per-record mutation of one parent group in `ItemCsvGenerator::generate`:
first non-empty title wins, the item count always increments, and a parsed
date sample bumps the year and year-month tallies. -/
def updateGroupData (fileTitleClean : List Char) (dateSource : Option (List Char))
    (g : GroupData) : GroupData :=
  let g1 :=
    if g.title = [] ∧ fileTitleClean ≠ [] then {g with title := fileTitleClean} else g
  let g2 := {g1 with count := g1.count + 1}
  match dateSource with
  | none => g2
  | some src =>
    match parseYearAndMonth src with
    | none => g2
    | some (year, maybeMonth) =>
      let g3 :=
        {g2 with totalDateSamples := g2.totalDateSamples + 1,
                 yearCounts := bumpAssoc year g2.yearCounts}
      match maybeMonth with
      | some m => {g3 with yearMonthCounts := bumpAssoc (year, m) g3.yearMonthCounts}
      | none => g3

/-- Models `parent_data.entry(key).or_default()` followed by the mutation `f`. -/
def updateGroups (key : List Char) (f : GroupData → GroupData) :
    List (List Char × GroupData) → List (List Char × GroupData)
  | [] => [(key, f {})]
  | (k, g) :: rest =>
    if k = key then (k, f g) :: rest else (k, g) :: updateGroups key f rest

/-- Embeds `ItemGenerationStats` (item_csv_generator.rs). -/
structure ItemStats where
  uniqueParents : Nat := 0
  totalItems : Nat := 0
  skippedRows : Nat := 0
deriving DecidableEq

/-- One iteration of the record loop of `ItemCsvGenerator::generate`:
`total_items` counts every record; a record whose `parent_id` cell is
effectively empty is skipped; otherwise its parent group is updated.  A
record lacking the `parent_id` or `fileTitle` index is neither skipped nor
grouped (the `if let` does not match). -/
def itemStep (parentIdIdx fileTitleIdx : Nat) (fieldDateIdx : Option Nat)
    (acc : List (List Char × GroupData) × ItemStats) (record : List (List Char)) :
    List (List Char × GroupData) × ItemStats :=
  let stats := {acc.2 with totalItems := acc.2.totalItems + 1}
  match record.get? parentIdIdx, record.get? fileTitleIdx with
  | some parentIdRaw, some fileTitleRaw =>
    if isEffectivelyEmpty parentIdRaw then
      (acc.1, {stats with skippedRows := stats.skippedRows + 1})
    else
      let parentIdClean := normalizeCell parentIdRaw
      let fileTitleClean := normalizeCell fileTitleRaw
      let dateSource := dateSourceFor fieldDateIdx record fileTitleClean
      (updateGroups parentIdClean (updateGroupData fileTitleClean dateSource) acc.1,
        stats)
  | _, _ => (acc.1, stats)

/-- The whole record loop of `ItemCsvGenerator::generate`, with
`unique_parents` filled in from the final group count. -/
def aggregateItems (parentIdIdx fileTitleIdx : Nat) (fieldDateIdx : Option Nat)
    (records : List (List (List Char))) : List (List Char × GroupData) × ItemStats :=
  let r := records.foldl (itemStep parentIdIdx fileTitleIdx fieldDateIdx) ([], {})
  (r.1, {r.2 with uniqueParents := r.1.length})

/-- The running-maximum fold behind `maxByCount`. -/
def maxByCountGo (acc : Option (Nat × Nat × Nat)) :
    List ((Nat × Nat) × Nat) → Option (Nat × Nat × Nat)
  | [] => acc
  | e :: rest =>
    match acc with
    | none => maxByCountGo (some (e.1.1, e.1.2, e.2)) rest
    | some best =>
      if e.2 ≥ best.2.2 then maxByCountGo (some (e.1.1, e.1.2, e.2)) rest
      else maxByCountGo acc rest

/-- Models `iter().max_by_key(|(_, c)| *c)` over the year-month tallies: the
last entry with the maximal count, in iteration order. -/
def maxByCount (l : List ((Nat × Nat) × Nat)) : Option (Nat × Nat × Nat) :=
  maxByCountGo none l

/-- Decimal digit character. -/
def digitChar (n : Nat) : Char := Char.ofNat (48 + n)

/-- Fuelled decimal printing helper. -/
def natDigitsAux : Nat → Nat → List Char
  | 0, _ => []
  | fuel + 1, n =>
    if n < 10 then [digitChar n] else natDigitsAux fuel (n / 10) ++ [digitChar (n % 10)]

/-- Decimal digit string of a natural number (`usize::to_string`). -/
def natDigits (n : Nat) : List Char := natDigitsAux (n + 1) n

/-- Models `format!("{:02}/{}", m, y)`. -/
def formatMonthYear (m y : Nat) : List Char :=
  (if m < 10 then '0' :: natDigits m else natDigits m) ++ S "/" ++ natDigits y

/-- The sample-weighted `(sum, total)` fold over the year tallies in
`ItemCsvGenerator::generate`.  The source folds in `u32`: the `cnt as u32`
cast truncates the `usize` count, and each product and running sum wraps
modulo `2^32` (release-profile semantics; the debug profile panics at the
same overflows).  The explicit `% 2 ^ 32` reductions reproduce that
wrapping. -/
def yearSumTotal (l : List (Nat × Nat)) : Nat × Nat :=
  l.foldl (fun acc e =>
    ((acc.1 + (e.1 * (e.2 % 2 ^ 32)) % 2 ^ 32) % 2 ^ 32,
     (acc.2 + e.2 % 2 ^ 32) % 2 ^ 32)) (0, 0)

/-- Models `((sum as f64) / (total as f64)).round() as u16`: rounding half
away from zero of the exact rational `sum / total`.  The theorems invoke
this only for `sum` and `total` below `2^32` with every year below `2^16`:
there both operands convert to f64 exactly, the weighted-mean quotient stays
below `2^16`, so the saturating `as u16` cast is the identity, and the
correctly rounded f64 division — within `2^-36` of the exact rational, which
is never nearer than `2^-33` to a half-integer it does not hit exactly —
rounds to the same integer as this formula. -/
def roundedAvg (sum total : Nat) : Nat := (2 * sum + total) / (2 * total)

/-- Embeds the per-group `field_date` finalization of
`ItemCsvGenerator::generate` (the `field_date_value` computation). -/
def finalizeDate (g : GroupData) : List Char :=
  if g.totalDateSamples = 0 then []
  else
    match maxByCount g.yearMonthCounts with
    | some (y, m, c) =>
      if c * 2 > g.totalDateSamples then formatMonthYear m y
      else
        let st := yearSumTotal g.yearCounts
        let avg := if st.2 > 0 then roundedAvg st.1 st.2 else y
        natDigits avg
    | none =>
      let st := yearSumTotal g.yearCounts
      if st.2 > 0 then natDigits (roundedAvg st.1 st.2) else []

/-! Theorems.  Each claim of the specification is settled below; helper
lemmas come first. -/

/-- A cell accepted by the accessIdentifier validator normalizes to a
non-empty value. -/
lemma accessIdentifierValidate_nonempty {cell : List Char}
    (h : accessIdentifierValidate cell = true) : normalizeCell cell ≠ [] := by
  intro he
  simp [accessIdentifierValidate, he] at h

/-- NBSP replacement introduces no mojibake marker characters. -/
lemma containsMojibakeMarkers_nbspFix (v : List Char)
    (h : containsMojibakeMarkers v = false) :
    containsMojibakeMarkers (nbspFix v) = false := by
  simp only [containsMojibakeMarkers, nbspFix, List.any_map] at h ⊢
  rw [List.any_eq_false] at h ⊢
  intro c hc
  by_cases hn : c = nbspChar
  · simp [hn]
    decide
  · simp [hn]
    have := h c hc
    simpa using this

/-- NBSP replacement leaves no non-breaking space behind. -/
lemma contains_nbspFix (v : List Char) : (nbspFix v).contains nbspChar = false := by
  induction v with
  | nil => rfl
  | cons c cs ih =>
    simp only [nbspFix, List.map_cons, List.contains_cons]
    rw [Bool.or_eq_false_iff]
    refine ⟨?_, ih⟩
    by_cases hn : c = nbspChar
    · simp [hn]
      decide
    · simp [hn, Ne.symm hn]

/-- When a cell has no mojibake markers, sanitization is exactly the NBSP fix. -/
lemma sanitizeText_no_markers (v : List Char)
    (h : containsMojibakeMarkers v = false) :
    sanitizeText v = if v.contains nbspChar then (nbspFix v, true) else (v, false) := by
  by_cases hc : nbspChar ∈ v
  · have hm : containsMojibakeMarkers (nbspFix v) = false :=
      containsMojibakeMarkers_nbspFix v h
    simp [sanitizeText, fixCommonMojibake, hc, hm]
  · simp [sanitizeText, fixCommonMojibake, hc, h]

/-- C3 (amended): the sanitizer is idempotent on any input free of mojibake
marker characters: with no markers the repair never fires and the NBSP fix
is idempotent. -/
theorem C3_sanitize_idempotent_no_markers (v : List Char)
    (h : containsMojibakeMarkers v = false) :
    (sanitizeText (sanitizeText v).1).1 = (sanitizeText v).1 := by
  by_cases hc : nbspChar ∈ v
  · have e1 : sanitizeText v = (nbspFix v, true) := by
      rw [sanitizeText_no_markers v h]
      simp [hc]
    have hm2 : nbspChar ∉ nbspFix v := by
      simpa using contains_nbspFix v
    have e2 : sanitizeText (nbspFix v) = (nbspFix v, false) := by
      rw [sanitizeText_no_markers (nbspFix v) (containsMojibakeMarkers_nbspFix v h)]
      simp [hm2]
    rw [e1]
    simp [e2]
  · have e1 : sanitizeText v = (v, false) := by
      rw [sanitizeText_no_markers v h]
      simp [hc]
    rw [e1]
    simp [e1]

/-- C3 witness: idempotence at a concrete marker-free input. -/
theorem C3_witness :
    (sanitizeText (sanitizeText (S "hello world")).1).1 =
      (sanitizeText (S "hello world")).1 :=
  C3_sanitize_idempotent_no_markers (S "hello world") (by decide)

/-- C3 counterexample: the claim fails as stated.  On the doubly mojibaked
input `ÃƒÂ©` one application repairs to `Ã©`, which still contains the
marker `Ã` (the code, unlike the spec, does not re-check the repaired text
for markers), so a second application repairs again to `é`. -/
theorem C3_counterexample :
    (sanitizeText (sanitizeText (S "ÃƒÂ©")).1).1 ≠ (sanitizeText (S "ÃƒÂ©")).1 := by
  decide

/-- C4 (amended): the output header always equals the input header, for any
modifier set; in particular no synthetic `field_model` column is ever
appended when a field-model rule is active but the column is absent. -/
theorem C4_header_unchanged (mods : List (List Char × ColModifier))
    (headers : List (List Char)) (records : List (List (List Char))) :
    (processCsv mods headers records).header = headers := rfl

/-- C4 counterexample: with the full modifier pipeline active (including the
field-model rule) and `field_model` absent from the input header, the output
header equals the input header rather than the input header with
`field_model` appended. -/
theorem C4_counterexample :
    (processCsv (defaultMods cfg0)
        [S "accessIdentifier", S "file", S "file_extension", S "parent_id", S "title"]
        [[S "2024_19_01_001", S "document", S "pdf", S "", S "First Document"]]).header =
      [S "accessIdentifier", S "file", S "file_extension", S "parent_id", S "title"] ∧
    [S "accessIdentifier", S "file", S "file_extension", S "parent_id", S "title"] ≠
      [S "accessIdentifier", S "file", S "file_extension", S "parent_id", S "title"] ++
        [S "field_model"] := by
  constructor
  · rfl
  · decide

/-- C9 (amended): with a cell that normalizes to a non-empty value, a
non-empty accessIdentifier and an available extension, the file modifier
returns `{parent_id}/{basename}.{extension}`, with `parent_id` the
accessIdentifier up to its last underscore and `basename` the normalized
cell up to its last dot. -/
theorem C9_file_extension_format (value : List Char) (ctx : RowContext)
    (e : List Char)
    (hv : normalizeCell value ≠ [])
    (ha : ctx.getOrEmpty (S "accessIdentifier") ≠ [])
    (he : ctx.getFirstNonEmpty [S "file_extension", S "file_extention"] = some e) :
    fileExtensionModify value ctx =
      (beforeLast '_' (ctx.getOrEmpty (S "accessIdentifier"))).getD
          (ctx.getOrEmpty (S "accessIdentifier")) ++
        S "/" ++ (beforeLast '.' (normalizeCell value)).getD (normalizeCell value) ++
        S "." ++ e := by
  have h1 :
      ((([S "file_extension", S "file_extention"].filterMap
          (fun c => ctx.get c)).map normalizeCell).find? (fun v => !v.isEmpty)) =
        some e := he
  have hne : e.isEmpty = false := by
    have h2 := List.find?_some h1
    simpa using h2
  have h2 : (normalizeCell value).isEmpty = false := by
    simpa [List.isEmpty_iff] using hv
  have h3 : (ctx.getOrEmpty (S "accessIdentifier")).isEmpty = false := by
    simpa [List.isEmpty_iff] using ha
  unfold fileExtensionModify
  rw [show ctx.getFirstNonEmpty [S "file_extension", S "file_extention"] = some e
    from he]
  simp [hne, h2, h3]

/-- C9 witness: the spec's own example, `document.old` with extension `pdf`
and accessIdentifier `2024_19_01_001`. -/
theorem C9_witness :
    fileExtensionModify (S "document.old")
      ⟨[S "accessIdentifier", S "file", S "file_extension"],
       [S "2024_19_01_001", S "document.old", S "pdf"], 0⟩ =
      S "2024_19_01/document.pdf" :=
  (C9_file_extension_format (S "document.old")
      ⟨[S "accessIdentifier", S "file", S "file_extension"],
       [S "2024_19_01_001", S "document.old", S "pdf"], 0⟩
      (S "pdf") (by decide) (by decide) (by decide)).trans (by decide)

/-- C9 counterexample: the claim quantifies over every cell value, but for a
cell that normalizes to empty the modifier returns the empty string, not the
`{parent_id}/{basename}.{extension}` shape the claim predicts. -/
theorem C9_counterexample :
    fileExtensionModify (S "")
        ⟨[S "accessIdentifier", S "file_extension"],
         [S "2024_19_01_001", S "pdf"], 0⟩ = S "" ∧
      S "" ≠ S "2024_19_01/.pdf" := by
  constructor
  · decide
  · decide

/-- The four-byte digit window test that the amended C7 claim is phrased
with: the window of `bytes` at position `i` yields a year exactly when it
has four bytes, all ASCII digits, with value in `[1000, 2999]`. -/
def yearWindowAt (bytes : List Nat) (i : Nat) : Option Nat :=
  let w := (bytes.drop i).take 4
  if w.length = 4 ∧ w.all isAsciiDigit then
    let y := digitsVal w
    if 1000 ≤ y ∧ y ≤ 2999 then some y else none
  else none

/-- The year scan returns the first position (at or after its start offset)
whose four-byte window is an in-range digit run, and `none` exactly when no
window qualifies. -/
lemma findYear_spec (l : List Nat) (pos : Nat) :
    (∀ i y, findYear pos l = some (i, y) →
      pos ≤ i ∧ yearWindowAt l (i - pos) = some y ∧
        ∀ j, j < i - pos → yearWindowAt l j = none) ∧
    (findYear pos l = none → ∀ j, yearWindowAt l j = none) := by
  induction l generalizing pos with
  | nil =>
    refine ⟨fun i y h => by simp [findYear] at h, fun _ j => ?_⟩
    simp [yearWindowAt]
  | cons b rest ih =>
    have hwin0 :
        yearWindowAt (b :: rest) 0 =
          if ((b :: rest).take 4).length = 4 ∧ ((b :: rest).take 4).all isAsciiDigit then
            if 1000 ≤ digitsVal ((b :: rest).take 4) ∧
                digitsVal ((b :: rest).take 4) ≤ 2999 then
              some (digitsVal ((b :: rest).take 4))
            else none
          else none := by
      simp only [yearWindowAt, List.drop_zero]
    have hwinSucc : ∀ j, yearWindowAt (b :: rest) (j + 1) = yearWindowAt rest j := by
      intro j
      simp only [yearWindowAt, List.drop_succ_cons]
    by_cases h1 : ((b :: rest).take 4).length = 4 ∧ ((b :: rest).take 4).all isAsciiDigit
    · by_cases h2 : 1000 ≤ digitsVal ((b :: rest).take 4) ∧
          digitsVal ((b :: rest).take 4) ≤ 2999
      · have heq : findYear pos (b :: rest) =
            some (pos, digitsVal ((b :: rest).take 4)) := by
          simp only [findYear]
          rw [if_pos h1, if_pos h2]
        refine ⟨fun i y h => ?_, fun h => ?_⟩
        · rw [heq] at h
          injection h with h'
          injection h' with hi hy
          subst hi
          subst hy
          refine ⟨Nat.le_refl _, ?_, ?_⟩
          · rw [Nat.sub_self, hwin0, if_pos h1, if_pos h2]
          · intro j hj
            omega
        · rw [heq] at h
          exact absurd h (by simp)
      · have heq : findYear pos (b :: rest) = findYear (pos + 1) rest := by
          simp only [findYear]
          rw [if_pos h1, if_neg h2]
        refine ⟨fun i y h => ?_, fun h => ?_⟩
        · rw [heq] at h
          obtain ⟨hle, hwin, hbefore⟩ := (ih (pos + 1)).1 i y h
          refine ⟨by omega, ?_, ?_⟩
          · have hsub : i - pos = (i - (pos + 1)) + 1 := by omega
            rw [hsub, hwinSucc]
            exact hwin
          · intro j hj
            cases j with
            | zero => rw [hwin0, if_pos h1, if_neg h2]
            | succ j' =>
              rw [hwinSucc]
              exact hbefore j' (by omega)
        · rw [heq] at h
          intro j
          cases j with
          | zero => rw [hwin0, if_pos h1, if_neg h2]
          | succ j' =>
            rw [hwinSucc]
            exact (ih (pos + 1)).2 h j'
    · have heq : findYear pos (b :: rest) = findYear (pos + 1) rest := by
        simp only [findYear]
        rw [if_neg h1]
      refine ⟨fun i y h => ?_, fun h => ?_⟩
      · rw [heq] at h
        obtain ⟨hle, hwin, hbefore⟩ := (ih (pos + 1)).1 i y h
        refine ⟨by omega, ?_, ?_⟩
        · have hsub : i - pos = (i - (pos + 1)) + 1 := by omega
          rw [hsub, hwinSucc]
          exact hwin
        · intro j hj
          cases j with
          | zero => rw [hwin0, if_neg h1]
          | succ j' =>
            rw [hwinSucc]
            exact hbefore j' (by omega)
      · rw [heq] at h
        intro j
        cases j with
        | zero => rw [hwin0, if_neg h1]
        | succ j' =>
          rw [hwinSucc]
          exact (ih (pos + 1)).2 h j'

/-- On a non-empty trimmed text whose scan finds a year, the parse is the
month-attachment step at that year. -/
lemma parseYearAndMonth_eq_yearWithMonth (value : List Char) (i0 y0 : Nat)
    (hs : (rustTrim value).isEmpty = false)
    (hfy : findYear 0 (utf8Encode (rustTrim value)) = some (i0, y0)) :
    parseYearAndMonth value = yearWithMonth (utf8Encode (rustTrim value)) i0 y0 := by
  unfold parseYearAndMonth
  simp only [hs, Bool.false_eq_true, if_false]
  rw [hfy]

/-- The month-attachment step always reports the year it was given. -/
lemma yearWithMonth_some (bytes : List Nat) (yIdx year : Nat) :
    ∃ mo, yearWithMonth bytes yIdx year = some (year, mo) := by
  unfold yearWithMonth
  rcases monthAfterYear bytes yIdx with _ | m
  · rcases monthBeforeYear bytes yIdx with _ | m'
    · exact ⟨none, rfl⟩
    · exact ⟨some m', rfl⟩
  · exact ⟨some m, rfl⟩

/-- A successful parse carries exactly the year found by the scan. -/
lemma parseYearAndMonth_some_year (value : List Char) (y : Nat) (mo : Option Nat)
    (h : parseYearAndMonth value = some (y, mo)) :
    ∃ i, findYear 0 (utf8Encode (rustTrim value)) = some (i, y) := by
  by_cases hs : (rustTrim value).isEmpty
  · unfold parseYearAndMonth at h
    simp [hs] at h
  · have hs' : (rustTrim value).isEmpty = false := by
      simpa using hs
    rcases hfy : findYear 0 (utf8Encode (rustTrim value)) with _ | ⟨i0, y0⟩
    · unfold parseYearAndMonth at h
      simp only [hs', Bool.false_eq_true, if_false] at h
      rw [hfy] at h
      simp at h
    · rw [parseYearAndMonth_eq_yearWithMonth value i0 y0 hs' hfy] at h
      obtain ⟨mo', hm⟩ := yearWithMonth_some (utf8Encode (rustTrim value)) i0 y0
      rw [hm] at h
      have hp : y0 = y ∧ mo' = mo := by simpa using h
      exact ⟨i0, by rw [hp.1]⟩

/-- The parse fails exactly when the trimmed text is empty or the scan fails. -/
lemma parseYearAndMonth_none_iff (value : List Char) :
    parseYearAndMonth value = none ↔
      (rustTrim value = [] ∨ findYear 0 (utf8Encode (rustTrim value)) = none) := by
  by_cases hs : (rustTrim value).isEmpty
  · unfold parseYearAndMonth
    simp [hs, List.isEmpty_iff.mp hs]
  · have hs' : (rustTrim value).isEmpty = false := by
      simpa using hs
    have hne : rustTrim value ≠ [] := by
      simpa [List.isEmpty_iff] using hs
    rcases hfy : findYear 0 (utf8Encode (rustTrim value)) with _ | ⟨i0, y0⟩
    · unfold parseYearAndMonth
      simp only [hs', Bool.false_eq_true, if_false]
      rw [hfy]
      simp [hne]
    · rw [parseYearAndMonth_eq_yearWithMonth value i0 y0 hs' hfy]
      obtain ⟨mo', hm⟩ := yearWithMonth_some (utf8Encode (rustTrim value)) i0 y0
      rw [hm]
      simp [hne, hfy]

/-- C7 (amended): the year heuristic succeeds exactly when some four-byte
window of the trimmed text's UTF-8 bytes is an all-digit run with value in
`[1000, 2999]`, and the returned year comes from the leftmost such window —
the window may sit inside a longer digit run, so `12345` yields year `1234`
rather than no sample. -/
theorem C7_year_scan (value : List Char) :
    (parseYearAndMonth value = none ↔
      (rustTrim value = [] ∨
        ∀ j, yearWindowAt (utf8Encode (rustTrim value)) j = none)) ∧
    (∀ y mo, parseYearAndMonth value = some (y, mo) →
      ∃ i, yearWindowAt (utf8Encode (rustTrim value)) i = some y ∧
        ∀ j, j < i → yearWindowAt (utf8Encode (rustTrim value)) j = none) := by
  constructor
  · rw [parseYearAndMonth_none_iff]
    constructor
    · intro h
      rcases h with h | h
      · exact Or.inl h
      · exact Or.inr ((findYear_spec (utf8Encode (rustTrim value)) 0).2 h)
    · intro h
      rcases h with h | h
      · exact Or.inl h
      · right
        rcases hfy : findYear 0 (utf8Encode (rustTrim value)) with _ | ⟨i0, y0⟩
        · rfl
        · obtain ⟨_, hwin, _⟩ :=
            (findYear_spec (utf8Encode (rustTrim value)) 0).1 i0 y0 hfy
          rw [Nat.sub_zero] at hwin
          exact absurd hwin (by simp [h i0])
  · intro y mo h
    obtain ⟨i, hfy⟩ := parseYearAndMonth_some_year value y mo h
    obtain ⟨_, hwin, hbefore⟩ :=
      (findYear_spec (utf8Encode (rustTrim value)) 0).1 i y hfy
    rw [Nat.sub_zero] at hwin
    refine ⟨i, hwin, fun j hj => hbefore j (by omega)⟩

/-- C7 witness: on `2024-01-05` the parse returns year 2024 and the leftmost
qualifying four-byte window carries that year. -/
theorem C7_witness :
    ∃ i, yearWindowAt (utf8Encode (rustTrim (S "2024-01-05"))) i = some 2024 ∧
      ∀ j, j < i → yearWindowAt (utf8Encode (rustTrim (S "2024-01-05"))) j = none :=
  (C7_year_scan (S "2024-01-05")).2 2024 (some 1) (by decide)

/-- C7 counterexample: the claim says an input whose only digit runs are
longer than four digits records no sample, but on `12345` the heuristic
accepts the window `1234` inside the five-digit run. -/
theorem C7_counterexample :
    parseYearAndMonth (S "12345") = some (1234, none) ∧
      parseYearAndMonth (S "12345") ≠ none := by
  constructor
  · decide
  · decide

/-- Total of the per-entry sample counts of a tally list. -/
def sumCounts (l : List ((Nat × Nat) × Nat)) : Nat :=
  (l.map (fun e => e.2)).sum

/-- An entry's count is bounded by the tally total. -/
lemma mem_le_sumCounts {e : (Nat × Nat) × Nat} {l : List ((Nat × Nat) × Nat)}
    (h : e ∈ l) : e.2 ≤ sumCounts l := by
  induction l with
  | nil => cases h
  | cons x rest ih =>
    rcases List.mem_cons.mp h with h | h
    · subst h
      simp [sumCounts]
    · have h2 := ih h
      simp only [sumCounts, List.map_cons, List.sum_cons]
      simp only [sumCounts] at h2
      omega

/-- Two distinct entries together are bounded by the tally total. -/
lemma two_mem_le_sumCounts {a b : (Nat × Nat) × Nat} {l : List ((Nat × Nat) × Nat)}
    (ha : a ∈ l) (hb : b ∈ l) (hne : a ≠ b) : a.2 + b.2 ≤ sumCounts l := by
  induction l with
  | nil => cases ha
  | cons x rest ih =>
    rcases List.mem_cons.mp ha with ha' | ha'
    · subst ha'
      have hb' : b ∈ rest := by
        rcases List.mem_cons.mp hb with hb' | hb'
        · exact absurd hb'.symm hne
        · exact hb'
      have h2 := mem_le_sumCounts hb'
      simp only [sumCounts, List.map_cons, List.sum_cons]
      simp only [sumCounts] at h2
      omega
    · rcases List.mem_cons.mp hb with hb' | hb'
      · subst hb'
        have h2 := mem_le_sumCounts ha'
        simp only [sumCounts, List.map_cons, List.sum_cons]
        simp only [sumCounts] at h2
        omega
      · have h2 := ih ha' hb'
        simp only [sumCounts, List.map_cons, List.sum_cons]
        simp only [sumCounts] at h2
        omega

/-- Once the running maximum holds a strictly dominant entry, it keeps it. -/
lemma maxByCountGo_absorb {y m c : Nat} (l : List ((Nat × Nat) × Nat))
    (h : ∀ e ∈ l, e ≠ ((y, m), c) → e.2 < c) :
    maxByCountGo (some (y, m, c)) l = some (y, m, c) := by
  induction l with
  | nil => rfl
  | cons x rest ih =>
    by_cases hx : x = ((y, m), c)
    · subst hx
      simp only [maxByCountGo]
      rw [if_pos (Nat.le_refl c)]
      exact ih (fun e he hne => h e (List.mem_cons_of_mem _ he) hne)
    · have hlt : x.2 < c := h x (List.mem_cons_self _ _) hx
      simp only [maxByCountGo]
      rw [if_neg (by omega)]
      exact ih (fun e he hne => h e (List.mem_cons_of_mem _ he) hne)

/-- The running maximum reaches a strictly dominant entry from any smaller
accumulator. -/
lemma maxByCountGo_reach {y m c : Nat} (l : List ((Nat × Nat) × Nat))
    (hmem : ((y, m), c) ∈ l)
    (h : ∀ e ∈ l, e ≠ ((y, m), c) → e.2 < c)
    (acc : Option (Nat × Nat × Nat))
    (hacc : acc = none ∨ ∃ a b d, acc = some (a, b, d) ∧ d < c) :
    maxByCountGo acc l = some (y, m, c) := by
  induction l generalizing acc with
  | nil => cases hmem
  | cons x rest ih =>
    by_cases hx : x = ((y, m), c)
    · subst hx
      rcases hacc with hacc | ⟨a, b, d, hacc, hd⟩
      · subst hacc
        simp only [maxByCountGo]
        exact maxByCountGo_absorb rest
          (fun e he hne => h e (List.mem_cons_of_mem _ he) hne)
      · subst hacc
        simp only [maxByCountGo]
        rw [if_pos (by omega)]
        exact maxByCountGo_absorb rest
          (fun e he hne => h e (List.mem_cons_of_mem _ he) hne)
    · have hmem' : ((y, m), c) ∈ rest := by
        rcases List.mem_cons.mp hmem with hmem' | hmem'
        · exact absurd hmem'.symm hx
        · exact hmem'
      have hlt : x.2 < c := h x (List.mem_cons_self _ _) hx
      rcases hacc with hacc | ⟨a, b, d, hacc, hd⟩
      · subst hacc
        simp only [maxByCountGo]
        exact ih hmem' (fun e he hne => h e (List.mem_cons_of_mem _ he) hne) _
          (Or.inr ⟨x.1.1, x.1.2, x.2, rfl, hlt⟩)
      · subst hacc
        simp only [maxByCountGo]
        by_cases hge : x.2 ≥ d
        · rw [if_pos hge]
          exact ih hmem' (fun e he hne => h e (List.mem_cons_of_mem _ he) hne) _
            (Or.inr ⟨x.1.1, x.1.2, x.2, rfl, hlt⟩)
        · rw [if_neg hge]
          exact ih hmem' (fun e he hne => h e (List.mem_cons_of_mem _ he) hne) _
            (Or.inr ⟨a, b, d, rfl, hd⟩)

/-- A strictly dominant entry is the running maximum of the whole tally. -/
lemma maxByCount_of_dominant {y m c : Nat} {l : List ((Nat × Nat) × Nat)}
    (hmem : ((y, m), c) ∈ l)
    (h : ∀ e ∈ l, e ≠ ((y, m), c) → e.2 < c) :
    maxByCount l = some (y, m, c) :=
  maxByCountGo_reach l hmem h none (Or.inl rfl)

/-- Whatever the running maximum returns came from the accumulator or the list. -/
lemma maxByCountGo_mem (l : List ((Nat × Nat) × Nat)) :
    ∀ acc, maxByCountGo acc l = acc ∨
      ∃ e ∈ l, maxByCountGo acc l = some (e.1.1, e.1.2, e.2) := by
  induction l with
  | nil => exact fun acc => Or.inl rfl
  | cons x rest ih =>
    intro acc
    match acc with
    | none =>
      rcases ih (some (x.1.1, x.1.2, x.2)) with h | ⟨e, he, h⟩
      · exact Or.inr ⟨x, List.mem_cons_self _ _, by simpa [maxByCountGo] using h⟩
      · exact Or.inr ⟨e, List.mem_cons_of_mem _ he, by simpa [maxByCountGo] using h⟩
    | some best =>
      by_cases hge : x.2 ≥ best.2.2
      · rcases ih (some (x.1.1, x.1.2, x.2)) with h | ⟨e, he, h⟩
        · refine Or.inr ⟨x, List.mem_cons_self _ _, ?_⟩
          simpa [maxByCountGo, hge] using h
        · refine Or.inr ⟨e, List.mem_cons_of_mem _ he, ?_⟩
          simpa [maxByCountGo, hge] using h
      · rcases ih (some best) with h | ⟨e, he, h⟩
        · refine Or.inl ?_
          simpa [maxByCountGo, hge] using h
        · refine Or.inr ⟨e, List.mem_cons_of_mem _ he, ?_⟩
          simpa [maxByCountGo, hge] using h

/-- The result of the running maximum over a tally is an entry of the tally. -/
lemma maxByCount_mem {l : List ((Nat × Nat) × Nat)} {y m c : Nat}
    (h : maxByCount l = some (y, m, c)) : ((y, m), c) ∈ l := by
  rcases maxByCountGo_mem l none with h' | ⟨e, he, h'⟩
  · rw [maxByCount] at h
    rw [h'] at h
    cases h
  · rw [maxByCount] at h
    rw [h'] at h
    have he2 : e = ((y, m), c) := by
      rcases e with ⟨⟨a, b⟩, d⟩
      simp at h
      simp [h]
    rwa [he2] at he

/-- Below `2^32` the wrapped u32 fold computes the exact weighted sums. -/
lemma yearSumTotal_eq_exact (l : List (Nat × Nat))
    (h1 : (l.map (fun e => e.1 * e.2)).sum < 2 ^ 32)
    (h2 : (l.map (fun e => e.2)).sum < 2 ^ 32) :
    yearSumTotal l =
      ((l.map (fun e => e.1 * e.2)).sum, (l.map (fun e => e.2)).sum) := by
  have hgo : ∀ (m : List (Nat × Nat)) (s t : Nat),
      s + (m.map (fun e => e.1 * e.2)).sum < 2 ^ 32 →
      t + (m.map (fun e => e.2)).sum < 2 ^ 32 →
      m.foldl (fun acc e =>
        ((acc.1 + (e.1 * (e.2 % 2 ^ 32)) % 2 ^ 32) % 2 ^ 32,
         (acc.2 + e.2 % 2 ^ 32) % 2 ^ 32)) (s, t) =
      (s + (m.map (fun e => e.1 * e.2)).sum, t + (m.map (fun e => e.2)).sum) := by
    intro m
    induction m with
    | nil => intro s t _ _; simp
    | cons e rest ih =>
      intro s t h1 h2
      simp only [List.map_cons, List.sum_cons, List.foldl_cons] at h1 h2 ⊢
      have he2 : e.2 % 2 ^ 32 = e.2 := Nat.mod_eq_of_lt (by omega)
      rw [he2]
      have hm : e.1 * e.2 % 2 ^ 32 = e.1 * e.2 := Nat.mod_eq_of_lt (by omega)
      rw [hm]
      have hs : (s + e.1 * e.2) % 2 ^ 32 = s + e.1 * e.2 :=
        Nat.mod_eq_of_lt (by omega)
      have ht : (t + e.2) % 2 ^ 32 = t + e.2 := Nat.mod_eq_of_lt (by omega)
      rw [hs, ht, ih (s + e.1 * e.2) (t + e.2) (by omega) (by omega)]
      simp [Nat.add_assoc]
  have h := hgo l 0 0 (by simpa using h1) (by simpa using h2)
  simpa [yearSumTotal] using h

/-- C6: per-group date finalization.  A group with no date samples gets an
empty date.  A (year, month) pair whose count is a strict majority of
`total_date_samples` (under the structural facts that the pair is recorded in
the month tally and the month tally total does not exceed the sample total)
is formatted as zero-padded `MM/YYYY`.  Otherwise — every pair at most half,
samples present, year tally non-empty — the date is the sample-count-weighted
mean of the years rounded half away from zero, printed as a year; this last
branch carries the bounds (years below `2^16` as in the source's `u16`, both
weighted sums below `2^32`) under which the u32 fold does not wrap and the
integer rounding formula agrees with the source's f64 computation. -/
theorem C6_group_date (g : GroupData) :
    (g.totalDateSamples = 0 → finalizeDate g = []) ∧
    (∀ y m c, ((y, m), c) ∈ g.yearMonthCounts →
      c * 2 > g.totalDateSamples →
      sumCounts g.yearMonthCounts ≤ g.totalDateSamples →
      finalizeDate g = formatMonthYear m y) ∧
    ((∀ e ∈ g.yearMonthCounts, e.2 * 2 ≤ g.totalDateSamples) →
      g.totalDateSamples ≠ 0 →
      0 < (g.yearCounts.map (fun e => e.2)).sum →
      (∀ e ∈ g.yearCounts, e.1 < 2 ^ 16) →
      (g.yearCounts.map (fun e => e.1 * e.2)).sum < 2 ^ 32 →
      (g.yearCounts.map (fun e => e.2)).sum < 2 ^ 32 →
      finalizeDate g =
        natDigits (roundedAvg (g.yearCounts.map (fun e => e.1 * e.2)).sum
          (g.yearCounts.map (fun e => e.2)).sum)) := by
  refine ⟨fun h => by simp [finalizeDate, h], fun y m c hmem hmaj hsum => ?_, ?_⟩
  · have hcle : c ≤ sumCounts g.yearMonthCounts := mem_le_sumCounts hmem
    have htot : g.totalDateSamples ≠ 0 := by omega
    have hdom : ∀ e ∈ g.yearMonthCounts, e ≠ ((y, m), c) → e.2 < c := by
      intro e he hne
      have h2 := two_mem_le_sumCounts hmem he (Ne.symm hne)
      omega
    have hmax := maxByCount_of_dominant hmem hdom
    simp [finalizeDate, htot, hmax, hmaj]
  · intro hall htot hpos hyy hb1 hb2
    have hex := yearSumTotal_eq_exact g.yearCounts hb1 hb2
    have hst : 0 < (yearSumTotal g.yearCounts).2 := by rw [hex]; exact hpos
    have hfd : finalizeDate g =
        natDigits (roundedAvg (yearSumTotal g.yearCounts).1
          (yearSumTotal g.yearCounts).2) := by
      rcases hmax : maxByCount g.yearMonthCounts with _ | ⟨y, m, c⟩
      · simp [finalizeDate, htot, hmax, hst]
      · have hmem := maxByCount_mem hmax
        have hle : c * 2 ≤ g.totalDateSamples := hall _ hmem
        have hnot : ¬ c * 2 > g.totalDateSamples := by omega
        simp [finalizeDate, htot, hmax, hnot, hst]
    rw [hfd, hex]

/-- C6 witness: the spec's own example — samples (2024,1), (2024,1), (2024,3)
give the majority pair (2024,1) and the date `01/2024`. -/
theorem C6_witness :
    finalizeDate
      {title := S "x", count := 3,
       yearMonthCounts := [((2024, 1), 2), ((2024, 3), 1)],
       yearCounts := [(2024, 3)], totalDateSamples := 3} = S "01/2024" :=
  ((C6_group_date
      {title := S "x", count := 3,
       yearMonthCounts := [((2024, 1), 2), ((2024, 3), 1)],
       yearCounts := [(2024, 3)], totalDateSamples := 3}).2.1 2024 1 2
    (by decide) (by decide) (by decide)).trans (by decide)

/-- Sum of the per-group item counts. -/
def groupCountSum (groups : List (List Char × GroupData)) : Nat :=
  (groups.map (fun p => p.2.count)).sum

/-- The per-record group mutation increments the item count by exactly one. -/
lemma updateGroupData_count (ftc : List Char) (ds : Option (List Char))
    (g : GroupData) : (updateGroupData ftc ds g).count = g.count + 1 := by
  rcases ds with _ | src <;>
    simp only [updateGroupData] <;>
    (repeat' split) <;>
    simp

/-- Updating one group with a count-incrementing mutation raises the total
item count by exactly one, whether the key is new or existing. -/
lemma updateGroups_countSum (key : List Char) (f : GroupData → GroupData)
    (hf : ∀ g, (f g).count = g.count + 1) (l : List (List Char × GroupData)) :
    groupCountSum (updateGroups key f l) = groupCountSum l + 1 := by
  induction l with
  | nil => simp [updateGroups, groupCountSum, hf]
  | cons x rest ih =>
    rcases x with ⟨k, g⟩
    by_cases hk : k = key
    · simp only [updateGroups, if_pos hk, groupCountSum, List.map_cons,
        List.sum_cons, hf]
      simp only [groupCountSum] at ih ⊢
      omega
    · simp only [updateGroups, if_neg hk, groupCountSum, List.map_cons,
        List.sum_cons]
      simp only [groupCountSum] at ih
      omega

/-- One aggregation step counts the record in `total_items` and either counts
it in `skipped_rows` or in exactly one group's item count. -/
lemma itemStep_inv (pIdx tIdx : Nat) (fdIdx : Option Nat)
    (acc : List (List Char × GroupData) × ItemStats) (record : List (List Char))
    (hp : pIdx < record.length) (ht : tIdx < record.length) :
    (itemStep pIdx tIdx fdIdx acc record).2.totalItems = acc.2.totalItems + 1 ∧
    (itemStep pIdx tIdx fdIdx acc record).2.skippedRows +
        groupCountSum (itemStep pIdx tIdx fdIdx acc record).1 =
      acc.2.skippedRows + groupCountSum acc.1 + 1 := by
  rcases hgp : record.get? pIdx with _ | p
  · exact absurd (List.get?_eq_none.mp hgp) (by omega)
  · rcases hgt : record.get? tIdx with _ | ftv
    · exact absurd (List.get?_eq_none.mp hgt) (by omega)
    · by_cases he : isEffectivelyEmpty p
      · simp only [itemStep]
        rw [hgp, hgt]
        simp [he]
        omega
      · have hsum := updateGroups_countSum (normalizeCell p)
          (updateGroupData (normalizeCell ftv)
            (dateSourceFor fdIdx record (normalizeCell ftv)))
          (fun g => updateGroupData_count _ _ g) acc.1
        simp only [itemStep]
        rw [hgp, hgt]
        simp [he, hsum]
        omega

/-- The aggregation fold, from any starting state, counts every record into
`total_items` and splits them between `skipped_rows` and the group counts. -/
lemma itemFold_inv (pIdx tIdx : Nat) (fdIdx : Option Nat)
    (records : List (List (List Char))) :
    ∀ acc : List (List Char × GroupData) × ItemStats,
      (∀ r ∈ records, pIdx < r.length ∧ tIdx < r.length) →
      ((records.foldl (itemStep pIdx tIdx fdIdx) acc).2.totalItems =
          acc.2.totalItems + records.length ∧
        (records.foldl (itemStep pIdx tIdx fdIdx) acc).2.skippedRows +
            groupCountSum (records.foldl (itemStep pIdx tIdx fdIdx) acc).1 =
          acc.2.skippedRows + groupCountSum acc.1 + records.length) := by
  induction records with
  | nil => exact fun acc _ => ⟨rfl, by simp⟩
  | cons r rest ih =>
    intro acc hrect
    have hr := hrect r (List.mem_cons_self _ _)
    have hstep := itemStep_inv pIdx tIdx fdIdx acc r hr.1 hr.2
    have hrest := ih (itemStep pIdx tIdx fdIdx acc r)
      (fun r' hr' => hrect r' (List.mem_cons_of_mem _ hr'))
    simp only [List.foldl_cons, List.length_cons]
    exact ⟨by omega, by omega⟩

/-- C10: over any rectangular record list (every record long enough to hold
the `parent_id` and `fileTitle` cells, which the CSV reader guarantees),
`total_items` counts every record — the skipped ones included — and always
equals `skipped_rows` plus the sum of the per-group item counts. -/
theorem C10_total_items (pIdx tIdx : Nat) (fdIdx : Option Nat)
    (records : List (List (List Char)))
    (hrect : ∀ r ∈ records, pIdx < r.length ∧ tIdx < r.length) :
    (aggregateItems pIdx tIdx fdIdx records).2.totalItems = records.length ∧
    (aggregateItems pIdx tIdx fdIdx records).2.totalItems =
      (aggregateItems pIdx tIdx fdIdx records).2.skippedRows +
        groupCountSum (aggregateItems pIdx tIdx fdIdx records).1 := by
  have h := itemFold_inv pIdx tIdx fdIdx records ([], {}) hrect
  simp only [aggregateItems]
  refine ⟨?_, ?_⟩
  · simpa [groupCountSum] using h.1
  · have h1 := h.1
    have h2 := h.2
    simp only [groupCountSum, List.map_nil, List.sum_nil] at h1 h2
    simp only [groupCountSum]
    omega

/-- C10 witness: the repository's own generator test input, with one row
skipped for an empty parent id. -/
theorem C10_witness :
    (aggregateItems 1 2 none
        [[S "2024_19_01_001", S "2024_19_01", S "Annual Report 2024", S "d1.pdf"],
         [S "2024_19_01_002", S "", S "Annual Report 2024", S "d2.pdf"],
         [S "2024_19_01_003", S "2024_19_01", S "Annual Report 2024", S "d3.pdf"]]).2.totalItems =
      ([[S "2024_19_01_001", S "2024_19_01", S "Annual Report 2024", S "d1.pdf"],
        [S "2024_19_01_002", S "", S "Annual Report 2024", S "d2.pdf"],
        [S "2024_19_01_003", S "2024_19_01", S "Annual Report 2024", S "d3.pdf"]] :
        List (List (List Char))).length ∧
    (aggregateItems 1 2 none
        [[S "2024_19_01_001", S "2024_19_01", S "Annual Report 2024", S "d1.pdf"],
         [S "2024_19_01_002", S "", S "Annual Report 2024", S "d2.pdf"],
         [S "2024_19_01_003", S "2024_19_01", S "Annual Report 2024", S "d3.pdf"]]).2.totalItems =
      (aggregateItems 1 2 none
          [[S "2024_19_01_001", S "2024_19_01", S "Annual Report 2024", S "d1.pdf"],
           [S "2024_19_01_002", S "", S "Annual Report 2024", S "d2.pdf"],
           [S "2024_19_01_003", S "2024_19_01", S "Annual Report 2024", S "d3.pdf"]]).2.skippedRows +
        groupCountSum
          (aggregateItems 1 2 none
              [[S "2024_19_01_001", S "2024_19_01", S "Annual Report 2024", S "d1.pdf"],
               [S "2024_19_01_002", S "", S "Annual Report 2024", S "d2.pdf"],
               [S "2024_19_01_003", S "2024_19_01", S "Annual Report 2024", S "d3.pdf"]]).1 :=
  C10_total_items 1 2 none
    [[S "2024_19_01_001", S "2024_19_01", S "Annual Report 2024", S "d1.pdf"],
     [S "2024_19_01_002", S "", S "Annual Report 2024", S "d2.pdf"],
     [S "2024_19_01_003", S "2024_19_01", S "Annual Report 2024", S "d3.pdf"]]
    (by decide)

/-- Setting one cell never changes the positions of other cells. -/
lemma get?_set_ne' {α : Type} (l : List α) (i j : Nat) (a : α) (h : i ≠ j) :
    (l.set i a).get? j = l.get? j := by
  simp [List.get?_eq_getElem?, List.getElem?_set_ne h]

/-- The placeholder clearing keeps the row length. -/
lemma clearIfPlaceholder_length (t n oc : List Char) (ci : Nat)
    (rv : List (List Char)) (st : Stats) :
    (clearIfPlaceholder t n oc ci rv st).1.length = rv.length := by
  unfold clearIfPlaceholder
  repeat' split
  all_goals simp

/-- The placeholder clearing touches only the modifier's own column. -/
lemma clearIfPlaceholder_get_ne (t n oc : List Char) (ci : Nat)
    (rv : List (List Char)) (st : Stats) (j : Nat) (hne : ci ≠ j) :
    (clearIfPlaceholder t n oc ci rv st).1.get? j = rv.get? j := by
  unfold clearIfPlaceholder
  repeat' split
  all_goals simp [List.getElem?_set_ne hne]

/-- The modifier loop keeps the row length. -/
lemma modifierPass_row_length (headers : List (List Char)) (rowIdx : Nat)
    (seen : List (List Char)) (mods : List (List Char × ColModifier)) :
    ∀ rv stats cur,
      (modifierPass headers rowIdx seen mods rv stats cur).row.length = rv.length := by
  induction mods with
  | nil => intro rv stats cur; rfl
  | cons p rest ih =>
    intro rv stats cur
    rcases p with ⟨columnName, m⟩
    rcases hidx : headerMapGet headers columnName with _ | ci
    · simp only [modifierPass, hidx]
      exact ih rv stats cur
    · rcases hcell : rv.get? ci with _ | cell
      · simp only [modifierPass, hidx, hcell]
        exact ih rv stats cur
      · simp only [modifierPass, hidx, hcell]
        by_cases hv : m.validate cell ⟨headers, rv, rowIdx⟩ = true
        · rw [if_pos hv]
          by_cases hdup : columnName = aidColumn ∧ normalizeCell cell ≠ [] ∧
              normalizeCell cell ∈ seen
          · rw [if_pos hdup]
          · rw [if_neg hdup, ih]
            simp
        · rw [if_neg hv]
          by_cases haid : columnName = aidColumn
          · rw [if_pos haid]
            simp only []
            rw [clearIfPlaceholder_length, clearIfPlaceholder_length]
          · rw [if_neg haid, ih, clearIfPlaceholder_length, clearIfPlaceholder_length]

/-- The modifier loop leaves every column it does not target untouched. -/
lemma modifierPass_row_get_ne (headers : List (List Char)) (rowIdx : Nat)
    (seen : List (List Char)) (j : Nat) (mods : List (List Char × ColModifier)) :
    ∀ rv stats cur,
      (∀ p ∈ mods, headerMapGet headers p.1 ≠ some j) →
      (modifierPass headers rowIdx seen mods rv stats cur).row.get? j = rv.get? j := by
  induction mods with
  | nil => intro rv stats cur _; rfl
  | cons p rest ih =>
    intro rv stats cur hmods
    rcases p with ⟨columnName, m⟩
    have hhd : headerMapGet headers columnName ≠ some j :=
      hmods ⟨columnName, m⟩ (List.mem_cons_self _ _)
    have hrest : ∀ q ∈ rest, headerMapGet headers q.1 ≠ some j :=
      fun q hq => hmods q (List.mem_cons_of_mem _ hq)
    rcases hidx : headerMapGet headers columnName with _ | ci
    · simp only [modifierPass, hidx]
      exact ih rv stats cur hrest
    · have hci : ci ≠ j := by
        intro he
        exact hhd (by rw [hidx, he])
      rcases hcell : rv.get? ci with _ | cell
      · simp only [modifierPass, hidx, hcell]
        exact ih rv stats cur hrest
      · simp only [modifierPass, hidx, hcell]
        by_cases hv : m.validate cell ⟨headers, rv, rowIdx⟩ = true
        · rw [if_pos hv]
          by_cases hdup : columnName = aidColumn ∧ normalizeCell cell ≠ [] ∧
              normalizeCell cell ∈ seen
          · rw [if_pos hdup]
          · rw [if_neg hdup, ih _ _ _ hrest, get?_set_ne' _ _ _ _ hci]
        · rw [if_neg hv]
          by_cases haid : columnName = aidColumn
          · rw [if_pos haid]
            simp only []
            rw [clearIfPlaceholder_get_ne _ _ _ _ _ _ _ hci,
              clearIfPlaceholder_get_ne _ _ _ _ _ _ _ hci]
          · rw [if_neg haid, ih _ _ _ hrest,
              clearIfPlaceholder_get_ne _ _ _ _ _ _ _ hci,
              clearIfPlaceholder_get_ne _ _ _ _ _ _ _ hci]

/-- Core per-row outcome: the row is either dropped or appended once, and a
written row has the modifier-pass row's length and, away from the
`field_description` column, its exact cells. -/
lemma processRowCore_output (mods : List (List Char × ColModifier))
    (headers : List (List Char)) (fdCol : Option Nat) (rowIdx : Nat)
    (st : ProcState) (stats0 : Stats) (rv0 : List (List Char)) :
    (processRowCore mods headers fdCol rowIdx st stats0 rv0).output = st.output ∨
    ∃ rw, (processRowCore mods headers fdCol rowIdx st stats0 rv0).output =
        st.output ++ [rw] ∧
      rw.length = rv0.length ∧
      ∀ j, fdCol ≠ some j →
        rw.get? j =
          (modifierPass headers rowIdx st.seen mods rv0 stats0 none).row.get? j := by
  by_cases hpv : (modifierPass headers rowIdx st.seen mods rv0 stats0 none).valid = true
  · right
    rcases hfd : fdCol with _ | fdIdx
    · refine ⟨(modifierPass headers rowIdx st.seen mods rv0 stats0 none).row, ?_, ?_, ?_⟩
      · simp only [processRowCore, hfd]
        rw [if_pos hpv]
      · exact modifierPass_row_length headers rowIdx st.seen mods rv0 stats0 none
      · intro j _
        rfl
    · rcases hcell : (modifierPass headers rowIdx st.seen mods rv0 stats0 none).row.get?
          fdIdx with _ | cell
      · refine ⟨(modifierPass headers rowIdx st.seen mods rv0 stats0 none).row, ?_, ?_, ?_⟩
        · simp only [processRowCore, hfd, hcell]
          rw [if_pos hpv]
        · exact modifierPass_row_length headers rowIdx st.seen mods rv0 stats0 none
        · intro j _
          rfl
      · refine ⟨(modifierPass headers rowIdx st.seen mods rv0 stats0 none).row.set fdIdx
            (ensureWrappedInQuotes cell).1, ?_, ?_, ?_⟩
        · simp only [processRowCore, hfd, hcell]
          rw [if_pos hpv]
          by_cases hw : (ensureWrappedInQuotes cell).2 = true
          · rw [if_pos hw]
          · rw [if_neg hw]
        · rw [List.length_set]
          exact modifierPass_row_length headers rowIdx st.seen mods rv0 stats0 none
        · intro j hj
          have hne : fdIdx ≠ j := by
            intro he
            exact hj (by rw [he])
          exact get?_set_ne' _ _ _ _ hne
  · left
    simp only [processRowCore]
    rw [if_neg hpv]

/-- A processed row is either skipped or written with exactly as many cells
as its input record. -/
lemma processRow_output_length (mods : List (List Char × ColModifier))
    (headers : List (List Char)) (titleCol : Option (Nat × List Char))
    (fdCol : Option Nat) (rowIdx : Nat) (st : ProcState)
    (record : List (List Char)) :
    (processRow mods headers titleCol fdCol rowIdx st record).output = st.output ∨
    ∃ rw, (processRow mods headers titleCol fdCol rowIdx st record).output =
        st.output ++ [rw] ∧ rw.length = record.length := by
  have hlen : (sanitizeRow record).length = record.length := by
    simp [sanitizeRow]
  rcases titleCol with _ | ⟨tIdx, tName⟩
  · rcases processRowCore_output mods headers fdCol rowIdx st
        {st.stats with cells_modified := st.stats.cells_modified + sanitizedCount record}
        (sanitizeRow record) with h | ⟨rw, hout, hl, _⟩
    · left
      simpa [processRow] using h
    · right
      exact ⟨rw, by simpa [processRow] using hout, hl.trans hlen⟩
  · by_cases hti : normalizeCell (((sanitizeRow record)[tIdx]?).getD []) = []
    · left
      simp [processRow, hti]
    · rcases processRowCore_output mods headers fdCol rowIdx st
          {st.stats with cells_modified := st.stats.cells_modified + sanitizedCount record}
          (sanitizeRow record) with h | ⟨rw, hout, hl, _⟩
      · left
        simpa [processRow, hti] using h
      · right
        exact ⟨rw, by simpa [processRow, hti] using hout, hl.trans hlen⟩

/-- Every written row of the record loop has the cell count of some input
record (or was in the accumulator already). -/
lemma processRows_output_length (mods : List (List Char × ColModifier))
    (headers : List (List Char)) (titleCol : Option (Nat × List Char))
    (fdCol : Option Nat) :
    ∀ (records : List (List (List Char))) (rowIdx : Nat) (st : ProcState),
      ∀ rw ∈ (processRows mods headers titleCol fdCol rowIdx st records).output,
        rw ∈ st.output ∨ ∃ rec ∈ records, rw.length = rec.length := by
  intro records
  induction records with
  | nil => intro rowIdx st rw h; exact Or.inl h
  | cons r rest ih =>
    intro rowIdx st rw h
    simp only [processRows] at h
    rcases ih _ _ rw h with hmem | ⟨rec, hrec, hlen⟩
    · rcases processRow_output_length mods headers titleCol fdCol rowIdx st r
          with hout | ⟨w, hw, hl⟩
      · rw [hout] at hmem
        exact Or.inl hmem
      · rw [hw] at hmem
        rcases List.mem_append.mp hmem with h1 | h2
        · exact Or.inl h1
        · refine Or.inr ⟨r, List.mem_cons_self _ _, ?_⟩
          rw [List.mem_singleton.mp h2, hl]
    · exact Or.inr ⟨rec, List.mem_cons_of_mem _ hrec, hlen⟩

/-- Every row written by `processCsv` has the cell count of some input
record. -/
lemma processCsv_rows_length (mods : List (List Char × ColModifier))
    (headers : List (List Char)) (records : List (List (List Char))) :
    ∀ rw ∈ (processCsv mods headers records).rows,
      ∃ rec ∈ records, rw.length = rec.length := by
  intro rw hrw
  simp only [processCsv] at hrw
  rcases processRows_output_length mods headers _ _ records 0 {} rw hrw with h | h
  · exact absurd h (List.not_mem_nil rw)
  · exact h

/-- C8 (amended): no padding occurs.  A record whose cell count differs from
the header's aborts the whole run — the csv reader is built without
`flexible(true)`, so `result?` propagates an `UnequalLengths` error — and on
a run that completes, every written row carries exactly the cell count of
one of the input records (modifiers only rewrite cells in place). -/
theorem C8_no_padding (mods : List (List Char × ColModifier))
    (headers : List (List Char)) (records : List (List (List Char))) :
    ((∃ r ∈ records, r.length ≠ headers.length) →
      processCsvReader mods headers records = none) ∧
    ∀ res, processCsvReader mods headers records = some res →
      ∀ rw ∈ res.rows, ∃ rec ∈ records, rw.length = rec.length := by
  constructor
  · rintro ⟨r, hr, hne⟩
    have hall : ¬ records.all (fun r => r.length == headers.length) = true := by
      intro hall
      exact hne (by simpa using List.all_eq_true.mp hall r hr)
    simp only [processCsvReader]
    rw [if_neg hall]
  · intro res hres rw hrw
    simp only [processCsvReader] at hres
    by_cases hall : records.all (fun r => r.length == headers.length) = true
    · rw [if_pos hall] at hres
      injection hres with h
      subst h
      exact processCsv_rows_length mods headers records rw hrw
    · rw [if_neg hall] at hres
      exact Option.noConfusion hres

/-- C8 witness: at a concrete ragged input the run indeed aborts. -/
theorem C8_witness :
    processCsvReader (defaultMods cfg0) [S "title", S "b"] [[S "t"]] = none :=
  (C8_no_padding (defaultMods cfg0) [S "title", S "b"] [[S "t"]]).1
    ⟨[S "t"], by decide, by decide⟩

/-- C8 counterexample: the claim says a one-cell record under a two-column
header is padded to header width and then processed, the run not aborting;
in fact the run aborts at that record and writes nothing. -/
theorem C8_counterexample :
    processCsvReader (defaultMods cfg0) [S "title", S "b"] [[S "t"]] = none ∧
      ([S "t"] : List (List Char)).length ≠
        ([S "title", S "b"] : List (List Char)).length := by
  constructor
  · decide
  · decide

/-- C2 (amended): there is no delimiter normalization pass.  A written row
carries, in every column that no active modifier targets and that is not the
`field_description` column, exactly the sanitized input cell — semicolons
included. -/
theorem C2_untouched_cell (mods : List (List Char × ColModifier))
    (headers : List (List Char)) (titleCol : Option (Nat × List Char))
    (fdCol : Option Nat) (rowIdx : Nat) (st : ProcState)
    (record : List (List Char)) (j : Nat)
    (hmods : ∀ p ∈ mods, headerMapGet headers p.1 ≠ some j)
    (hfd : fdCol ≠ some j) :
    (processRow mods headers titleCol fdCol rowIdx st record).output = st.output ∨
    ∃ rw, (processRow mods headers titleCol fdCol rowIdx st record).output =
        st.output ++ [rw] ∧ rw.get? j = (sanitizeRow record).get? j := by
  have hpass : ∀ stats0,
      (modifierPass headers rowIdx st.seen mods (sanitizeRow record) stats0 none).row.get? j =
        (sanitizeRow record).get? j :=
    fun stats0 =>
      modifierPass_row_get_ne headers rowIdx st.seen j mods (sanitizeRow record)
        stats0 none hmods
  rcases titleCol with _ | ⟨tIdx, tName⟩
  · rcases processRowCore_output mods headers fdCol rowIdx st
        {st.stats with cells_modified := st.stats.cells_modified + sanitizedCount record}
        (sanitizeRow record) with h | ⟨rw, hout, _, hget⟩
    · left
      simpa [processRow] using h
    · right
      exact ⟨rw, by simpa [processRow] using hout, (hget j hfd).trans (hpass _)⟩
  · by_cases hti : normalizeCell (((sanitizeRow record)[tIdx]?).getD []) = []
    · left
      simp [processRow, hti]
    · rcases processRowCore_output mods headers fdCol rowIdx st
          {st.stats with cells_modified := st.stats.cells_modified + sanitizedCount record}
          (sanitizeRow record) with h | ⟨rw, hout, _, hget⟩
      · left
        simpa [processRow, hti] using h
      · right
        exact ⟨rw, by simpa [processRow, hti] using hout, (hget j hfd).trans (hpass _)⟩

/-- C2 witness: one row with a semicolon in an untouched `notes` column,
under the full default pipeline, passes through unchanged. -/
theorem C2_witness :
    (processRow (defaultMods cfg0) [S "title", S "notes"] (some (0, S "title")) none 0
        {} [S "t", S "a;b"]).output = ({} : ProcState).output ∨
    ∃ rw, (processRow (defaultMods cfg0) [S "title", S "notes"] (some (0, S "title"))
        none 0 {} [S "t", S "a;b"]).output = ({} : ProcState).output ++ [rw] ∧
      rw.get? 1 = (sanitizeRow [S "t", S "a;b"]).get? 1 :=
  C2_untouched_cell (defaultMods cfg0) [S "title", S "notes"] (some (0, S "title"))
    none 0 {} [S "t", S "a;b"] 1 (by decide) (by decide)

/-- C2 counterexample: the claim predicts the semicolon in a `notes` cell is
replaced by a pipe and counted; the pipeline writes the cell verbatim and
counts no modification. -/
theorem C2_counterexample :
    (processCsv (defaultMods cfg0) [S "title", S "notes"] [[S "t", S "a;b"]]).rows =
        [[S "t", S "a;b"]] ∧
      (processCsv (defaultMods cfg0) [S "title", S "notes"]
          [[S "t", S "a;b"]]).stats.cells_modified = 0 ∧
      S "a;b" ≠ S "a|b" := by
  refine ⟨by decide, by decide, by decide⟩

/-- None of the modifiers after `accessIdentifier` targets that column. -/
lemma tailMods_no_aid (cfg : FieldModelCfg) : ∀ p ∈ tailMods cfg, p.1 ≠ aidColumn := by
  intro p hp
  rcases List.mem_cons.mp hp with h | hp
  · subst h
    show S "field_description" ≠ aidColumn
    decide
  rcases List.mem_cons.mp hp with h | hp
  · subst h
    show S "field_model" ≠ aidColumn
    decide
  rcases List.mem_cons.mp hp with h | hp
  · subst h
    show S "file" ≠ aidColumn
    decide
  rcases List.mem_cons.mp hp with h | hp
  · subst h
    show S "parent_id" ≠ aidColumn
    decide
  cases hp

/-- The placeholder clearing never touches the failure or row counters. -/
lemma clearIfPlaceholder_stats (t n oc : List Char) (ci : Nat)
    (rv : List (List Char)) (st : Stats) :
    (clearIfPlaceholder t n oc ci rv st).2.validation_failures =
        st.validation_failures ∧
      (clearIfPlaceholder t n oc ci rv st).2.skipped_rows = st.skipped_rows := by
  unfold clearIfPlaceholder
  repeat' split
  all_goals simp

/-- A run of the modifier loop over modifiers that never target
`accessIdentifier` cannot invalidate the row and keeps the pending
identifier. -/
lemma modifierPass_no_aid (headers : List (List Char)) (rowIdx : Nat)
    (seen : List (List Char)) (mods : List (List Char × ColModifier))
    (hmods : ∀ p ∈ mods, p.1 ≠ aidColumn) :
    ∀ rv stats cur,
      (modifierPass headers rowIdx seen mods rv stats cur).valid = true ∧
      (modifierPass headers rowIdx seen mods rv stats cur).ident = cur := by
  induction mods with
  | nil => intro rv stats cur; exact ⟨rfl, rfl⟩
  | cons p rest ih =>
    intro rv stats cur
    rcases p with ⟨columnName, m⟩
    have hname : columnName ≠ aidColumn :=
      hmods ⟨columnName, m⟩ (List.mem_cons_self _ _)
    have hrest : ∀ q ∈ rest, q.1 ≠ aidColumn :=
      fun q hq => hmods q (List.mem_cons_of_mem _ hq)
    rcases hidx : headerMapGet headers columnName with _ | ci
    · simp only [modifierPass, hidx]
      exact ih hrest rv stats cur
    · rcases hcell : rv.get? ci with _ | cell
      · simp only [modifierPass, hidx, hcell]
        exact ih hrest rv stats cur
      · simp only [modifierPass, hidx, hcell]
        by_cases hv : m.validate cell ⟨headers, rv, rowIdx⟩ = true
        · have hcur :
              (if columnName = aidColumn ∧ normalizeCell cell ≠ [] then
                some (normalizeCell cell)
              else cur) = cur :=
            if_neg (fun hc => hname hc.1)
          rw [if_pos hv, if_neg (fun hdup => hname hdup.1), hcur]
          exact ih hrest _ _ _
        · rw [if_neg hv, if_neg hname]
          exact ih hrest _ _ _

/-- One step of the modifier loop at an `accessIdentifier` cell that fails
the validator: the row is declared invalid on the spot after counting one
validation failure and running the (here inert) placeholder clearings. -/
lemma modifierPass_aid_invalid (cfg : FieldModelCfg) (headers : List (List Char))
    (rowIdx : Nat) (seen : List (List Char)) (rv : List (List Char)) (stats : Stats)
    (ci : Nat) (cell : List Char)
    (hidx : headerMapGet headers aidColumn = some ci)
    (hcell : rv.get? ci = some cell)
    (hval : accessIdentifierValidate cell = false) :
    modifierPass headers rowIdx seen (defaultMods cfg) rv stats none =
      ⟨(clearIfPlaceholder (S "file") aidColumn cell ci
          (clearIfPlaceholder (S "parent_id") aidColumn cell ci rv
            {stats with validation_failures := stats.validation_failures + 1}).1
          (clearIfPlaceholder (S "parent_id") aidColumn cell ci rv
            {stats with validation_failures := stats.validation_failures + 1}).2).1,
        (clearIfPlaceholder (S "file") aidColumn cell ci
          (clearIfPlaceholder (S "parent_id") aidColumn cell ci rv
            {stats with validation_failures := stats.validation_failures + 1}).1
          (clearIfPlaceholder (S "parent_id") aidColumn cell ci rv
            {stats with validation_failures := stats.validation_failures + 1}).2).2,
        none, false⟩ := by
  have hv : ¬ accessIdentifierValidator.validate cell ⟨headers, rv, rowIdx⟩ = true := by
    simp [accessIdentifierValidator, hval]
  conv_lhs =>
    rw [defaultMods, modifierPass, hidx]
    simp only [hcell]
    rw [if_neg hv]
    rw [if_pos trivial]

/-- Projections of `modifierPass_aid_invalid`: invalid row, one more
validation failure, skipped counter untouched. -/
lemma modifierPass_aid_invalid_stats (cfg : FieldModelCfg)
    (headers : List (List Char)) (rowIdx : Nat) (seen : List (List Char))
    (rv : List (List Char)) (stats : Stats) (ci : Nat) (cell : List Char)
    (hidx : headerMapGet headers aidColumn = some ci)
    (hcell : rv.get? ci = some cell)
    (hval : accessIdentifierValidate cell = false) :
    (modifierPass headers rowIdx seen (defaultMods cfg) rv stats none).valid = false ∧
    (modifierPass headers rowIdx seen (defaultMods cfg) rv stats none).stats.validation_failures =
      stats.validation_failures + 1 ∧
    (modifierPass headers rowIdx seen (defaultMods cfg) rv stats none).stats.skipped_rows =
      stats.skipped_rows := by
  rw [modifierPass_aid_invalid cfg headers rowIdx seen rv stats ci cell hidx hcell hval]
  have h1 := clearIfPlaceholder_stats (S "parent_id") aidColumn cell ci rv
    {stats with validation_failures := stats.validation_failures + 1}
  have h2 := clearIfPlaceholder_stats (S "file") aidColumn cell ci
    (clearIfPlaceholder (S "parent_id") aidColumn cell ci rv
      {stats with validation_failures := stats.validation_failures + 1}).1
    (clearIfPlaceholder (S "parent_id") aidColumn cell ci rv
      {stats with validation_failures := stats.validation_failures + 1}).2
  refine ⟨rfl, ?_, ?_⟩
  · show (clearIfPlaceholder (S "file") aidColumn cell ci _ _).2.validation_failures = _
    rw [h2.1, h1.1]
  · show (clearIfPlaceholder (S "file") aidColumn cell ci _ _).2.skipped_rows = _
    rw [h2.2, h1.2]

/-- One step of the modifier loop at a valid `accessIdentifier` cell whose
normalized value is already in the seen set: the duplicate branch declares
the row invalid, counts one validation failure and changes nothing else. -/
lemma modifierPass_aid_dup (cfg : FieldModelCfg) (headers : List (List Char))
    (rowIdx : Nat) (seen : List (List Char)) (rv : List (List Char)) (stats : Stats)
    (ci : Nat) (cell : List Char)
    (hidx : headerMapGet headers aidColumn = some ci)
    (hcell : rv.get? ci = some cell)
    (hval : accessIdentifierValidate cell = true)
    (hmem : normalizeCell cell ∈ seen) :
    modifierPass headers rowIdx seen (defaultMods cfg) rv stats none =
      ⟨rv, {stats with validation_failures := stats.validation_failures + 1},
        none, false⟩ := by
  have hv : accessIdentifierValidator.validate cell ⟨headers, rv, rowIdx⟩ = true := by
    simpa [accessIdentifierValidator] using hval
  have hne : normalizeCell cell ≠ [] := accessIdentifierValidate_nonempty hval
  conv_lhs =>
    rw [defaultMods, modifierPass, hidx]
    simp only [hcell]
    rw [if_pos hv]
    rw [if_pos ⟨trivial, hne, hmem⟩]

/-- One step of the modifier loop at a valid, fresh `accessIdentifier` cell:
the head step normalizes the cell, records the pending identifier and hands
over to the remaining modifiers. -/
lemma modifierPass_aid_ok_eq (cfg : FieldModelCfg) (headers : List (List Char))
    (rowIdx : Nat) (seen : List (List Char)) (rv : List (List Char)) (stats : Stats)
    (ci : Nat) (cell : List Char)
    (hidx : headerMapGet headers aidColumn = some ci)
    (hcell : rv.get? ci = some cell)
    (hval : accessIdentifierValidate cell = true)
    (hmem : normalizeCell cell ∉ seen) :
    modifierPass headers rowIdx seen (defaultMods cfg) rv stats none =
      modifierPass headers rowIdx seen (tailMods cfg)
        (rv.set ci (accessIdentifierValidator.modify cell ⟨headers, rv, rowIdx⟩))
        (if cell ≠ accessIdentifierValidator.modify cell ⟨headers, rv, rowIdx⟩ then
          {stats with cells_modified := stats.cells_modified + 1}
        else stats)
        (some (normalizeCell cell)) := by
  have hv : accessIdentifierValidator.validate cell ⟨headers, rv, rowIdx⟩ = true := by
    simpa [accessIdentifierValidator] using hval
  have hne : normalizeCell cell ≠ [] := accessIdentifierValidate_nonempty hval
  conv_lhs =>
    rw [defaultMods, modifierPass, hidx]
    simp only [hcell]
    rw [if_pos hv]
    rw [if_neg (fun h => hmem h.2.2)]
  simp [hne]

/-- At a valid, fresh `accessIdentifier` cell the whole pass survives and the
pending identifier is the normalized cell. -/
lemma modifierPass_aid_ok (cfg : FieldModelCfg) (headers : List (List Char))
    (rowIdx : Nat) (seen : List (List Char)) (rv : List (List Char)) (stats : Stats)
    (ci : Nat) (cell : List Char)
    (hidx : headerMapGet headers aidColumn = some ci)
    (hcell : rv.get? ci = some cell)
    (hval : accessIdentifierValidate cell = true)
    (hmem : normalizeCell cell ∉ seen) :
    (modifierPass headers rowIdx seen (defaultMods cfg) rv stats none).valid = true ∧
    (modifierPass headers rowIdx seen (defaultMods cfg) rv stats none).ident =
      some (normalizeCell cell) := by
  rw [modifierPass_aid_ok_eq cfg headers rowIdx seen rv stats ci cell hidx hcell
    hval hmem]
  exact modifierPass_no_aid headers rowIdx seen (tailMods cfg)
    (tailMods_no_aid cfg) _ _ _

/-- A validity failure of the modifier pass makes `processRowCore` skip the
row: the state keeps its seen set and output and counts one skipped row. -/
lemma processRowCore_invalid (mods : List (List Char × ColModifier))
    (headers : List (List Char)) (fdCol : Option Nat) (rowIdx : Nat)
    (st : ProcState) (stats0 : Stats) (rv0 : List (List Char))
    (hv : ¬ (modifierPass headers rowIdx st.seen mods rv0 stats0 none).valid = true) :
    processRowCore mods headers fdCol rowIdx st stats0 rv0 =
      { st with stats :=
        {(modifierPass headers rowIdx st.seen mods rv0 stats0 none).stats with
          skipped_rows :=
            (modifierPass headers rowIdx st.seen mods rv0 stats0 none).stats.skipped_rows
              + 1} } := by
  simp only [processRowCore]
  rw [if_neg hv]

/-- A valid modifier pass makes `processRowCore` append exactly one row. -/
lemma processRowCore_valid_output (mods : List (List Char × ColModifier))
    (headers : List (List Char)) (fdCol : Option Nat) (rowIdx : Nat)
    (st : ProcState) (stats0 : Stats) (rv0 : List (List Char))
    (hv : (modifierPass headers rowIdx st.seen mods rv0 stats0 none).valid = true) :
    ∃ w, (processRowCore mods headers fdCol rowIdx st stats0 rv0).output =
      st.output ++ [w] := by
  rcases hfd : fdCol with _ | fdIdx
  · refine ⟨(modifierPass headers rowIdx st.seen mods rv0 stats0 none).row, ?_⟩
    simp only [processRowCore, hfd]
    rw [if_pos hv]
  · rcases hcell : (modifierPass headers rowIdx st.seen mods rv0 stats0 none).row.get?
        fdIdx with _ | cell
    · refine ⟨(modifierPass headers rowIdx st.seen mods rv0 stats0 none).row, ?_⟩
      simp only [processRowCore, hfd, hcell]
      rw [if_pos hv]
    · refine ⟨(modifierPass headers rowIdx st.seen mods rv0 stats0 none).row.set fdIdx
          (ensureWrappedInQuotes cell).1, ?_⟩
      simp only [processRowCore, hfd, hcell]
      rw [if_pos hv]
      by_cases hw : (ensureWrappedInQuotes cell).2 = true
      · rw [if_pos hw]
      · rw [if_neg hw]

/-- A valid modifier pass with pending identifier `v` writes the row and
commits `v` to the seen set. -/
lemma processRowCore_valid (mods : List (List Char × ColModifier))
    (headers : List (List Char)) (fdCol : Option Nat) (rowIdx : Nat)
    (st : ProcState) (stats0 : Stats) (rv0 : List (List Char)) (v : List Char)
    (hv : (modifierPass headers rowIdx st.seen mods rv0 stats0 none).valid = true)
    (hi : (modifierPass headers rowIdx st.seen mods rv0 stats0 none).ident = some v) :
    (∃ w, (processRowCore mods headers fdCol rowIdx st stats0 rv0).output =
        st.output ++ [w]) ∧
      (processRowCore mods headers fdCol rowIdx st stats0 rv0).seen =
        insertSeen v st.seen := by
  refine ⟨processRowCore_valid_output mods headers fdCol rowIdx st stats0 rv0 hv, ?_⟩
  simp only [processRowCore]
  rw [if_pos hv, hi]

/-- A record whose title cell survives normalization goes through
`processRowCore` on the sanitized row. -/
lemma processRow_title_pass (mods : List (List Char × ColModifier))
    (headers : List (List Char)) (tIdx : Nat) (tname : List Char)
    (fdCol : Option Nat) (rowIdx : Nat) (st : ProcState)
    (record : List (List Char))
    (ht : ¬ normalizeCell (((sanitizeRow record)[tIdx]?).getD []) = []) :
    processRow mods headers (some (tIdx, tname)) fdCol rowIdx st record =
      processRowCore mods headers fdCol rowIdx st
        {st.stats with cells_modified := st.stats.cells_modified + sanitizedCount record}
        (sanitizeRow record) := by
  simp [processRow, ht]

/-- Without a title column every record goes through `processRowCore`. -/
lemma processRow_no_title (mods : List (List Char × ColModifier))
    (headers : List (List Char)) (fdCol : Option Nat) (rowIdx : Nat)
    (st : ProcState) (record : List (List Char)) :
    processRow mods headers none fdCol rowIdx st record =
      processRowCore mods headers fdCol rowIdx st
        {st.stats with cells_modified := st.stats.cells_modified + sanitizedCount record}
        (sanitizeRow record) := by
  simp [processRow]

/-- The title gate: an empty normalized title skips the row, counting one
validation failure and one skipped row. -/
lemma processRow_title_skip (mods : List (List Char × ColModifier))
    (headers : List (List Char)) (tIdx : Nat) (tname : List Char)
    (fdCol : Option Nat) (rowIdx : Nat) (st : ProcState)
    (record : List (List Char))
    (ht : normalizeCell (((sanitizeRow record)[tIdx]?).getD []) = []) :
    (processRow mods headers (some (tIdx, tname)) fdCol rowIdx st record).output =
        st.output ∧
    (processRow mods headers (some (tIdx, tname)) fdCol rowIdx st
        record).stats.skipped_rows = st.stats.skipped_rows + 1 ∧
    (processRow mods headers (some (tIdx, tname)) fdCol rowIdx st
        record).stats.validation_failures = st.stats.validation_failures + 1 := by
  refine ⟨?_, ?_, ?_⟩ <;> simp [processRow, ht]

/-- A row whose sanitized `accessIdentifier` cell fails the validator is
skipped, counting one validation failure and one skipped row. -/
lemma processRow_aid_invalid_skip (cfg : FieldModelCfg) (headers : List (List Char))
    (tIdx : Nat) (tname : List Char) (fdCol : Option Nat) (rowIdx : Nat)
    (st : ProcState) (record : List (List Char)) (ci : Nat) (cell : List Char)
    (hidx : headerMapGet headers aidColumn = some ci)
    (hcell : (sanitizeRow record).get? ci = some cell)
    (hval : accessIdentifierValidate cell = false)
    (ht : ¬ normalizeCell (((sanitizeRow record)[tIdx]?).getD []) = []) :
    (processRow (defaultMods cfg) headers (some (tIdx, tname)) fdCol rowIdx st
        record).output = st.output ∧
    (processRow (defaultMods cfg) headers (some (tIdx, tname)) fdCol rowIdx st
        record).stats.skipped_rows = st.stats.skipped_rows + 1 ∧
    (processRow (defaultMods cfg) headers (some (tIdx, tname)) fdCol rowIdx st
        record).stats.validation_failures = st.stats.validation_failures + 1 := by
  have hst := modifierPass_aid_invalid_stats cfg headers rowIdx st.seen
    (sanitizeRow record)
    {st.stats with cells_modified := st.stats.cells_modified + sanitizedCount record}
    ci cell hidx hcell hval
  have hcore := processRowCore_invalid (defaultMods cfg) headers fdCol rowIdx st
    {st.stats with cells_modified := st.stats.cells_modified + sanitizedCount record}
    (sanitizeRow record) (by simp [hst.1])
  rw [processRow_title_pass (defaultMods cfg) headers tIdx tname fdCol rowIdx st
    record ht, hcore]
  refine ⟨rfl, ?_, ?_⟩
  · simp [hst.2.2]
  · simp [hst.2.1]

/-- A row whose sanitized `accessIdentifier` cell is valid but whose
normalized value is already in the seen set is skipped as a duplicate,
counting one validation failure and one skipped row. -/
lemma processRow_aid_dup_skip (cfg : FieldModelCfg) (headers : List (List Char))
    (tIdx : Nat) (tname : List Char) (fdCol : Option Nat) (rowIdx : Nat)
    (st : ProcState) (record : List (List Char)) (ci : Nat) (cell : List Char)
    (hidx : headerMapGet headers aidColumn = some ci)
    (hcell : (sanitizeRow record).get? ci = some cell)
    (hval : accessIdentifierValidate cell = true)
    (hmem : normalizeCell cell ∈ st.seen)
    (ht : ¬ normalizeCell (((sanitizeRow record)[tIdx]?).getD []) = []) :
    (processRow (defaultMods cfg) headers (some (tIdx, tname)) fdCol rowIdx st
        record).output = st.output ∧
    (processRow (defaultMods cfg) headers (some (tIdx, tname)) fdCol rowIdx st
        record).stats.skipped_rows = st.stats.skipped_rows + 1 ∧
    (processRow (defaultMods cfg) headers (some (tIdx, tname)) fdCol rowIdx st
        record).stats.validation_failures = st.stats.validation_failures + 1 := by
  have hdup := modifierPass_aid_dup cfg headers rowIdx st.seen (sanitizeRow record)
    {st.stats with cells_modified := st.stats.cells_modified + sanitizedCount record}
    ci cell hidx hcell hval hmem
  have hcore := processRowCore_invalid (defaultMods cfg) headers fdCol rowIdx st
    {st.stats with cells_modified := st.stats.cells_modified + sanitizedCount record}
    (sanitizeRow record) (by simp [hdup])
  rw [processRow_title_pass (defaultMods cfg) headers tIdx tname fdCol rowIdx st
    record ht, hcore, hdup]
  exact ⟨rfl, rfl, rfl⟩

/-- A row with a valid, fresh sanitized `accessIdentifier` that passes the
title gate is written and commits its normalized identifier. -/
lemma processRow_aid_written (cfg : FieldModelCfg) (headers : List (List Char))
    (tIdx : Nat) (tname : List Char) (fdCol : Option Nat) (rowIdx : Nat)
    (st : ProcState) (record : List (List Char)) (ci : Nat) (cell : List Char)
    (hidx : headerMapGet headers aidColumn = some ci)
    (hcell : (sanitizeRow record).get? ci = some cell)
    (hval : accessIdentifierValidate cell = true)
    (hfresh : normalizeCell cell ∉ st.seen)
    (ht : ¬ normalizeCell (((sanitizeRow record)[tIdx]?).getD []) = []) :
    (∃ w, (processRow (defaultMods cfg) headers (some (tIdx, tname)) fdCol rowIdx st
        record).output = st.output ++ [w]) ∧
      (processRow (defaultMods cfg) headers (some (tIdx, tname)) fdCol rowIdx st
          record).seen = insertSeen (normalizeCell cell) st.seen := by
  have hok := modifierPass_aid_ok cfg headers rowIdx st.seen (sanitizeRow record)
    {st.stats with cells_modified := st.stats.cells_modified + sanitizedCount record}
    ci cell hidx hcell hval hfresh
  rw [processRow_title_pass (defaultMods cfg) headers tIdx tname fdCol rowIdx st
    record ht]
  exact processRowCore_valid (defaultMods cfg) headers fdCol rowIdx st
    {st.stats with cells_modified := st.stats.cells_modified + sanitizedCount record}
    (sanitizeRow record) (normalizeCell cell) hok.1 hok.2

/-- The inserted value is in the seen set afterwards. -/
lemma mem_insertSeen_self (v : List Char) (seen : List (List Char)) :
    v ∈ insertSeen v seen := by
  unfold insertSeen
  split
  · assumption
  · exact List.mem_cons_self _ _

/-- Inserting into the seen set loses no member. -/
lemma insertSeen_mono (v : List Char) (seen : List (List Char)) :
    ∀ x ∈ seen, x ∈ insertSeen v seen := by
  intro x hx
  unfold insertSeen
  split
  · exact hx
  · exact List.mem_cons_of_mem _ hx

/-- One core step loses no member of the seen set. -/
lemma processRowCore_seen_mono (mods : List (List Char × ColModifier))
    (headers : List (List Char)) (fdCol : Option Nat) (rowIdx : Nat)
    (st : ProcState) (stats0 : Stats) (rv0 : List (List Char)) :
    ∀ x ∈ st.seen, x ∈ (processRowCore mods headers fdCol rowIdx st stats0 rv0).seen := by
  intro x hx
  by_cases hv : (modifierPass headers rowIdx st.seen mods rv0 stats0 none).valid = true
  · rcases hident : (modifierPass headers rowIdx st.seen mods rv0 stats0 none).ident
        with _ | v
    · simp only [processRowCore]
      rw [if_pos hv, hident]
      exact hx
    · simp only [processRowCore]
      rw [if_pos hv, hident]
      exact insertSeen_mono v st.seen x hx
  · rw [processRowCore_invalid mods headers fdCol rowIdx st stats0 rv0 hv]
    exact hx

/-- One row step loses no member of the seen set. -/
lemma processRow_seen_mono (mods : List (List Char × ColModifier))
    (headers : List (List Char)) (titleCol : Option (Nat × List Char))
    (fdCol : Option Nat) (rowIdx : Nat) (st : ProcState)
    (record : List (List Char)) :
    ∀ x ∈ st.seen,
      x ∈ (processRow mods headers titleCol fdCol rowIdx st record).seen := by
  intro x hx
  rcases titleCol with _ | ⟨tIdx, tname⟩
  · rw [processRow_no_title mods headers fdCol rowIdx st record]
    exact processRowCore_seen_mono mods headers fdCol rowIdx st _ _ x hx
  · by_cases hti : normalizeCell (((sanitizeRow record)[tIdx]?).getD []) = []
    · simpa [processRow, hti] using hx
    · rw [processRow_title_pass mods headers tIdx tname fdCol rowIdx st record hti]
      exact processRowCore_seen_mono mods headers fdCol rowIdx st _ _ x hx

/-- The record loop loses no member of the seen set. -/
lemma processRows_seen_mono (mods : List (List Char × ColModifier))
    (headers : List (List Char)) (titleCol : Option (Nat × List Char))
    (fdCol : Option Nat) :
    ∀ (records : List (List (List Char))) (rowIdx : Nat) (st : ProcState),
      ∀ x ∈ st.seen,
        x ∈ (processRows mods headers titleCol fdCol rowIdx st records).seen := by
  intro records
  induction records with
  | nil => intro rowIdx st x hx; exact hx
  | cons r rest ih =>
    intro rowIdx st x hx
    simp only [processRows]
    exact ih _ _ x
      (processRow_seen_mono mods headers titleCol fdCol rowIdx st r x hx)

/-- A row step that changes the seen set has written its row. -/
lemma processRow_seen_gain (mods : List (List Char × ColModifier))
    (headers : List (List Char)) (titleCol : Option (Nat × List Char))
    (fdCol : Option Nat) (rowIdx : Nat) (st : ProcState)
    (record : List (List Char))
    (h : (processRow mods headers titleCol fdCol rowIdx st record).seen ≠ st.seen) :
    ∃ w, (processRow mods headers titleCol fdCol rowIdx st record).output =
      st.output ++ [w] := by
  rcases titleCol with _ | ⟨tIdx, tname⟩
  · rw [processRow_no_title mods headers fdCol rowIdx st record] at h ⊢
    by_cases hv : (modifierPass headers rowIdx st.seen (mods) (sanitizeRow record)
        {st.stats with cells_modified := st.stats.cells_modified + sanitizedCount record}
        none).valid = true
    · exact processRowCore_valid_output mods headers fdCol rowIdx st _ _ hv
    · exact absurd (by rw [processRowCore_invalid mods headers fdCol rowIdx st _ _ hv]) h
  · by_cases hti : normalizeCell (((sanitizeRow record)[tIdx]?).getD []) = []
    · exact absurd (by simp [processRow, hti]) h
    · rw [processRow_title_pass mods headers tIdx tname fdCol rowIdx st record hti]
        at h ⊢
      by_cases hv : (modifierPass headers rowIdx st.seen (mods) (sanitizeRow record)
          {st.stats with cells_modified := st.stats.cells_modified + sanitizedCount record}
          none).valid = true
      · exact processRowCore_valid_output mods headers fdCol rowIdx st _ _ hv
      · exact absurd (by rw [processRowCore_invalid mods headers fdCol rowIdx st _ _ hv]) h

/-- C1 (amended): under the full default pipeline, with the
`accessIdentifier` column present, a row is skipped — output unchanged, one
more skipped row and one more validation failure — in exactly the three
recoverable cases the code implements: an empty normalized title, an
`accessIdentifier` cell rejected by its validator, or a duplicated
`accessIdentifier`.  A validation failure of any other modifier (`file`,
`parent_id`, `field_model`) does not skip the row (see the
counterexample). -/
theorem C1_row_skip (cfg : FieldModelCfg) (headers : List (List Char))
    (tIdx : Nat) (tname : List Char) (fdCol : Option Nat) (rowIdx : Nat)
    (st : ProcState) (record : List (List Char)) (ci : Nat) (cell : List Char)
    (hidx : headerMapGet headers aidColumn = some ci)
    (hcell : (sanitizeRow record).get? ci = some cell)
    (hskip :
      normalizeCell (((sanitizeRow record)[tIdx]?).getD []) = [] ∨
      (¬ normalizeCell (((sanitizeRow record)[tIdx]?).getD []) = [] ∧
        accessIdentifierValidate cell = false) ∨
      (¬ normalizeCell (((sanitizeRow record)[tIdx]?).getD []) = [] ∧
        accessIdentifierValidate cell = true ∧ normalizeCell cell ∈ st.seen)) :
    (processRow (defaultMods cfg) headers (some (tIdx, tname)) fdCol rowIdx st
        record).output = st.output ∧
    (processRow (defaultMods cfg) headers (some (tIdx, tname)) fdCol rowIdx st
        record).stats.skipped_rows = st.stats.skipped_rows + 1 ∧
    (processRow (defaultMods cfg) headers (some (tIdx, tname)) fdCol rowIdx st
        record).stats.validation_failures = st.stats.validation_failures + 1 := by
  rcases hskip with h | ⟨ht, hv⟩ | ⟨ht, hv, hm⟩
  · exact processRow_title_skip (defaultMods cfg) headers tIdx tname fdCol rowIdx
      st record h
  · exact processRow_aid_invalid_skip cfg headers tIdx tname fdCol rowIdx st record
      ci cell hidx hcell hv ht
  · exact processRow_aid_dup_skip cfg headers tIdx tname fdCol rowIdx st record
      ci cell hidx hcell hv hm ht

/-- C1 witness: a concrete row whose `accessIdentifier` ends in `_00` is
skipped with one more skipped row and validation failure. -/
theorem C1_witness :
    (processRow (defaultMods cfg0) [S "accessIdentifier", S "title"]
        (some (1, S "title")) none 0 {} [S "bad_00", S "T"]).output =
      ({} : ProcState).output ∧
    (processRow (defaultMods cfg0) [S "accessIdentifier", S "title"]
        (some (1, S "title")) none 0 {} [S "bad_00", S "T"]).stats.skipped_rows =
      ({} : ProcState).stats.skipped_rows + 1 ∧
    (processRow (defaultMods cfg0) [S "accessIdentifier", S "title"]
        (some (1, S "title")) none 0 {}
        [S "bad_00", S "T"]).stats.validation_failures =
      ({} : ProcState).stats.validation_failures + 1 :=
  C1_row_skip cfg0 [S "accessIdentifier", S "title"] 1 (S "title") none 0 {}
    [S "bad_00", S "T"] 0 (S "bad_00") (by decide) (by decide)
    (Or.inr (Or.inl ⟨by decide, by decide⟩))

/-- C1 counterexample: the claim says a row whose `file` cell fails its
modifier's validate is not written.  On a row with a `file` value but no
extension the file validation fails (one validation failure is counted), yet
the row is written: one output row, no skipped row. -/
theorem C1_counterexample :
    (processCsv (defaultMods cfg0)
        [S "accessIdentifier", S "file", S "file_extension", S "parent_id", S "title"]
        [[S "2024_19_01_003", S "doc", S "", S "", S "Missing Ext"]]).stats =
      ⟨1, 1, 1, 0⟩ ∧
    (processCsv (defaultMods cfg0)
        [S "accessIdentifier", S "file", S "file_extension", S "parent_id", S "title"]
        [[S "2024_19_01_003", S "doc", S "", S "", S "Missing Ext"]]).rows.length =
      1 := by
  constructor
  · decide
  · decide

/-- C5: duplicate detection under the full default pipeline.  When two records
pass the title gate and their sanitized `accessIdentifier` cells normalize to
the same validator-accepted value, fresh before the first record, the first
record is written; the second — processed any number of records later — is
skipped with one more validation failure and skipped row; and the seen set
changes only on a row step that writes its row. -/
theorem C5_duplicate_detection (cfg : FieldModelCfg) (headers : List (List Char))
    (tIdx : Nat) (tname : List Char) (fdCol : Option Nat) (st : ProcState)
    (r1 r2 : List (List Char)) (mid : List (List (List Char)))
    (i1 j i2 ci : Nat) (cell1 cell2 : List Char)
    (hidx : headerMapGet headers aidColumn = some ci)
    (hcell1 : (sanitizeRow r1).get? ci = some cell1)
    (hcell2 : (sanitizeRow r2).get? ci = some cell2)
    (hval1 : accessIdentifierValidate cell1 = true)
    (hval2 : accessIdentifierValidate cell2 = true)
    (hsame : normalizeCell cell2 = normalizeCell cell1)
    (hfresh : normalizeCell cell1 ∉ st.seen)
    (ht1 : ¬ normalizeCell (((sanitizeRow r1)[tIdx]?).getD []) = [])
    (ht2 : ¬ normalizeCell (((sanitizeRow r2)[tIdx]?).getD []) = []) :
    (∃ w, (processRow (defaultMods cfg) headers (some (tIdx, tname)) fdCol i1 st
        r1).output = st.output ++ [w]) ∧
    ((processRow (defaultMods cfg) headers (some (tIdx, tname)) fdCol i2
        (processRows (defaultMods cfg) headers (some (tIdx, tname)) fdCol j
          (processRow (defaultMods cfg) headers (some (tIdx, tname)) fdCol i1 st r1)
          mid) r2).output =
      (processRows (defaultMods cfg) headers (some (tIdx, tname)) fdCol j
        (processRow (defaultMods cfg) headers (some (tIdx, tname)) fdCol i1 st r1)
        mid).output ∧
     (processRow (defaultMods cfg) headers (some (tIdx, tname)) fdCol i2
        (processRows (defaultMods cfg) headers (some (tIdx, tname)) fdCol j
          (processRow (defaultMods cfg) headers (some (tIdx, tname)) fdCol i1 st r1)
          mid) r2).stats.skipped_rows =
      (processRows (defaultMods cfg) headers (some (tIdx, tname)) fdCol j
        (processRow (defaultMods cfg) headers (some (tIdx, tname)) fdCol i1 st r1)
        mid).stats.skipped_rows + 1 ∧
     (processRow (defaultMods cfg) headers (some (tIdx, tname)) fdCol i2
        (processRows (defaultMods cfg) headers (some (tIdx, tname)) fdCol j
          (processRow (defaultMods cfg) headers (some (tIdx, tname)) fdCol i1 st r1)
          mid) r2).stats.validation_failures =
      (processRows (defaultMods cfg) headers (some (tIdx, tname)) fdCol j
        (processRow (defaultMods cfg) headers (some (tIdx, tname)) fdCol i1 st r1)
        mid).stats.validation_failures + 1) ∧
    (∀ (st' : ProcState) (r : List (List Char)) (i : Nat),
      (processRow (defaultMods cfg) headers (some (tIdx, tname)) fdCol i st' r).seen ≠
        st'.seen →
      ∃ w, (processRow (defaultMods cfg) headers (some (tIdx, tname)) fdCol i st'
        r).output = st'.output ++ [w]) := by
  have h1 := processRow_aid_written cfg headers tIdx tname fdCol i1 st r1 ci cell1
    hidx hcell1 hval1 hfresh ht1
  refine ⟨h1.1, ?_, ?_⟩
  · have hmem1 : normalizeCell cell1 ∈
        (processRow (defaultMods cfg) headers (some (tIdx, tname)) fdCol i1 st
          r1).seen := by
      rw [h1.2]
      exact mem_insertSeen_self _ _
    have hmem2 : normalizeCell cell2 ∈
        (processRows (defaultMods cfg) headers (some (tIdx, tname)) fdCol j
          (processRow (defaultMods cfg) headers (some (tIdx, tname)) fdCol i1 st r1)
          mid).seen := by
      rw [hsame]
      exact processRows_seen_mono (defaultMods cfg) headers (some (tIdx, tname))
        fdCol mid j _ _ hmem1
    exact processRow_aid_dup_skip cfg headers tIdx tname fdCol i2 _ r2 ci cell2
      hidx hcell2 hval2 hmem2 ht2
  · intro st' r i h
    exact processRow_seen_gain (defaultMods cfg) headers (some (tIdx, tname)) fdCol
      i st' r h

/-- C5 witness: two concrete records with the same identifier `A_1`, no
records in between. -/
theorem C5_witness :
    (∃ w, (processRow (defaultMods cfg0) [S "accessIdentifier", S "title"]
        (some (1, S "title")) none 0 {} [S "A_1", S "T1"]).output =
      ({} : ProcState).output ++ [w]) ∧
    ((processRow (defaultMods cfg0) [S "accessIdentifier", S "title"]
        (some (1, S "title")) none 1
        (processRows (defaultMods cfg0) [S "accessIdentifier", S "title"]
          (some (1, S "title")) none 1
          (processRow (defaultMods cfg0) [S "accessIdentifier", S "title"]
            (some (1, S "title")) none 0 {} [S "A_1", S "T1"])
          []) [S "A_1", S "T2"]).output =
      (processRows (defaultMods cfg0) [S "accessIdentifier", S "title"]
        (some (1, S "title")) none 1
        (processRow (defaultMods cfg0) [S "accessIdentifier", S "title"]
          (some (1, S "title")) none 0 {} [S "A_1", S "T1"])
        []).output ∧
     (processRow (defaultMods cfg0) [S "accessIdentifier", S "title"]
        (some (1, S "title")) none 1
        (processRows (defaultMods cfg0) [S "accessIdentifier", S "title"]
          (some (1, S "title")) none 1
          (processRow (defaultMods cfg0) [S "accessIdentifier", S "title"]
            (some (1, S "title")) none 0 {} [S "A_1", S "T1"])
          []) [S "A_1", S "T2"]).stats.skipped_rows =
      (processRows (defaultMods cfg0) [S "accessIdentifier", S "title"]
        (some (1, S "title")) none 1
        (processRow (defaultMods cfg0) [S "accessIdentifier", S "title"]
          (some (1, S "title")) none 0 {} [S "A_1", S "T1"])
        []).stats.skipped_rows + 1 ∧
     (processRow (defaultMods cfg0) [S "accessIdentifier", S "title"]
        (some (1, S "title")) none 1
        (processRows (defaultMods cfg0) [S "accessIdentifier", S "title"]
          (some (1, S "title")) none 1
          (processRow (defaultMods cfg0) [S "accessIdentifier", S "title"]
            (some (1, S "title")) none 0 {} [S "A_1", S "T1"])
          []) [S "A_1", S "T2"]).stats.validation_failures =
      (processRows (defaultMods cfg0) [S "accessIdentifier", S "title"]
        (some (1, S "title")) none 1
        (processRow (defaultMods cfg0) [S "accessIdentifier", S "title"]
          (some (1, S "title")) none 0 {} [S "A_1", S "T1"])
        []).stats.validation_failures + 1) ∧
    (∀ (st' : ProcState) (r : List (List Char)) (i : Nat),
      (processRow (defaultMods cfg0) [S "accessIdentifier", S "title"]
        (some (1, S "title")) none i st' r).seen ≠ st'.seen →
      ∃ w, (processRow (defaultMods cfg0) [S "accessIdentifier", S "title"]
        (some (1, S "title")) none i st' r).output = st'.output ++ [w]) :=
  C5_duplicate_detection cfg0 [S "accessIdentifier", S "title"] 1 (S "title") none
    {} [S "A_1", S "T1"] [S "A_1", S "T2"] [] 0 1 1 0 (S "A_1") (S "A_1")
    (by decide) (by decide) (by decide) (by decide) (by decide) rfl (by decide)
    (by decide) (by decide)
